import Mathlib

/-!
Verification of the mtcli interactive typing-session engine and chart renderer.

This file gives a shallow embedding, in Lean 4, of the Go code in
`internal/test` (session state machine and metrics tracker, file
`session.go` / `types.go`) and `internal/charts` (`chart.go`), and proves
or refutes the frozen specification claims about it.

Modelling conventions:
* Go `time.Time` instants are natural numbers of nanoseconds; the Go zero
  time (`IsZero()`) is the number `0`, and real clock readings are positive.
  Each externally delivered event carries the single instant `now` at which
  the engine processes it (the Go code may call `time.Now()` several times
  inside one event handler; those calls are sub-microsecond apart and are
  modelled as one instant).
* Go `float64` arithmetic on metrics is modelled with exact rationals `ℚ`;
  the divisions involved are guarded exactly as in the source.
* Go `int` counters are modelled with `ℤ` (so that the code's unguarded
  decrement in `handleBackspace` is modelled faithfully and the
  non-negativity of the counters is a theorem, not an assumption).
* The timer goroutine spawned in `Session.Start` is represented by two
  flags: `timerDone` (the channel is non-nil, i.e. was created) and
  `timerArmed` (the channel is non-nil and not yet closed); a close in
  `finish`/`Abort` clears `timerArmed`. Go's `close` of an already-closed
  channel panics, so `Abort` — the one function that can reach a closed
  channel — returns `Option Session`, `none` being the panic.
-/

namespace Mtcli

/-- Test mode, from `internal/test/types.go` (`ModeTimer`, `ModeWords`,
`ModeQuote`). -/
inductive Mode where
  | timer
  | words
  | quote
deriving DecidableEq, Repr

/-- Per-character verdict, from `internal/test/types.go`
(`CharUnattempted`, `CharCorrect`, `CharIncorrect`). -/
inductive CharState where
  | unattempted
  | correct
  | incorrect
deriving DecidableEq, Repr

/-- A metrics sample, from `internal/test/types.go` (`Sample`): elapsed
milliseconds, net WPM, raw WPM. -/
structure Sample where
  timeMs : ℤ
  wpm : ℚ
  rawWPM : ℚ
deriving DecidableEq, Repr

/-- Key-type constant `KeyTypeRune` from `internal/test/session.go`. -/
def keyTypeRune : ℕ := 0

/-- Key-type constant `KeyTypeBackspace` from `internal/test/session.go`. -/
def keyTypeBackspace : ℕ := 1

/-- Key-type constant `KeyTypeEnter` from `internal/test/session.go`. -/
def keyTypeEnter : ℕ := 2

/-- Key-type constant `KeyTypeEscape` from `internal/test/session.go`. -/
def keyTypeEscape : ℕ := 3

/-- The sampling interval of `NewMetricsTracker`: 500ms, in nanoseconds. -/
def sampleIntervalNs : ℕ := 500000000

/-- Nanoseconds per millisecond (`time.Duration.Milliseconds` divides by
this). -/
def nsPerMs : ℕ := 1000000

/-- Nanoseconds per minute as a rational (`time.Duration.Minutes` divides
by this). -/
def nsPerMinute : ℚ := 60000000000

/-- The combined mutable state of one typing session: the fields of Go
`SessionState` (`types.go`), the embedded `MetricsTracker`, and the
`Session` wiring (`timerSeconds`, armed-timer channel) from `session.go`,
flattened into one record because the Go code mutates them together. -/
structure Session where
  targetRunes : List Char
  mode : Mode
  timerSeconds : ℤ
  typedRunes : List Char
  charStates : List CharState
  startedAt : ℕ
  endedAt : ℕ
  finished : Bool
  aborted : Bool
  samples : List Sample
  lastSampleTime : ℕ
  totalTyped : ℤ
  correctChars : ℤ
  timerDone : Bool
  timerArmed : Bool
deriving DecidableEq, Repr

/-- The final result record, from Go `SessionResult` (`types.go`) as
filled in by `Session.GetResult`. -/
structure SessionResult where
  mode : Mode
  startedAt : ℕ
  durationNs : ℕ
  targetLen : ℕ
  totalTyped : ℤ
  correctChars : ℤ
  wpm : ℚ
  rawWPM : ℚ
  accuracy : ℚ
  samples : List Sample
deriving DecidableEq, Repr

/-- `NewSession` (`session.go`): fresh state with all verdicts
`Unattempted`, empty typed buffer, zero timestamps and counters. -/
def newSession (target : List Char) (mode : Mode) (timerSeconds : ℤ) : Session :=
  { targetRunes := target
    mode := mode
    timerSeconds := timerSeconds
    typedRunes := []
    charStates := List.replicate target.length CharState.unattempted
    startedAt := 0
    endedAt := 0
    finished := false
    aborted := false
    samples := []
    lastSampleTime := 0
    totalTyped := 0
    correctChars := 0
    timerDone := false
    timerArmed := false }

/-- `Session.Start` (`session.go`): stamp `StartedAt`, initialise
`lastSampleTime`, append the initial sample `{TimeMs: 0, WPM: 0,
RawWPM: 0}`, and in timer mode with a positive duration arm the duration
timer (`timerDone` channel created, goroutine spawned). -/
def Session.start (s : Session) (now : ℕ) : Session :=
  let s1 := { s with startedAt := now, lastSampleTime := now,
                     samples := s.samples ++ [{ timeMs := 0, wpm := 0, rawWPM := 0 }] }
  if s1.mode = Mode.timer ∧ 0 < s1.timerSeconds then
    { s1 with timerDone := true, timerArmed := true }
  else
    s1

/-- `Session.handleRune` (`session.go`): append the typed rune unless the
typed buffer has already reached the target length, bump `totalTyped`,
set the verdict at the new position by exact comparison with the target
rune there, bumping `correctChars` on a match. -/
def Session.handleRune (s : Session) (r : Char) : Session :=
  let idx := s.typedRunes.length
  if s.targetRunes.length ≤ idx then
    s
  else
    let s1 := { s with typedRunes := s.typedRunes ++ [r], totalTyped := s.totalTyped + 1 }
    if r = s.targetRunes.getD idx ' ' then
      { s1 with charStates := s1.charStates.set idx CharState.correct,
                correctChars := s1.correctChars + 1 }
    else
      { s1 with charStates := s1.charStates.set idx CharState.incorrect }

/-- `Session.handleBackspace` (`session.go`): no-op on an empty typed
buffer; otherwise decrement `correctChars` if the last position's verdict
was `Correct`, revert that verdict to `Unattempted`, and drop the last
typed rune. -/
def Session.handleBackspace (s : Session) : Session :=
  if s.typedRunes.length = 0 then
    s
  else
    let idx := s.typedRunes.length - 1
    let s1 := if s.charStates.getD idx CharState.unattempted = CharState.correct then
                { s with correctChars := s.correctChars - 1 }
              else
                s
    { s1 with charStates := s1.charStates.set idx CharState.unattempted,
              typedRunes := s1.typedRunes.take idx }

/-- `Session.calculateSample` (`session.go`): elapsed minutes floored at
0.001 to avoid division by zero, raw WPM `(totalTyped/5)/minutes`, net
WPM `(correctChars/5)/minutes`, elapsed milliseconds by truncating
division. -/
def Session.calculateSample (s : Session) (elapsedNs : ℕ) : Sample :=
  let minutes0 : ℚ := (elapsedNs : ℚ) / nsPerMinute
  let minutes : ℚ := if minutes0 < 1 / 1000 then 1 / 1000 else minutes0
  { timeMs := ((elapsedNs / nsPerMs : ℕ) : ℤ)
    wpm := ((s.correctChars : ℚ) / 5) / minutes
    rawWPM := ((s.totalTyped : ℚ) / 5) / minutes }

/-- `Session.maybeTakeSample` (`session.go`): no-op before start;
otherwise, if at least `sampleInterval` has passed since the last sample,
append a sample at the current elapsed time and remember `now`. -/
def Session.maybeTakeSample (s : Session) (now : ℕ) : Session :=
  if s.startedAt = 0 then
    s
  else if sampleIntervalNs ≤ now - s.lastSampleTime then
    { s with samples := s.samples ++ [s.calculateSample (now - s.startedAt)],
             lastSampleTime := now }
  else
    s

/-- `Session.TakeSample` (`session.go`): the ticker entry point; no-op
before start or after a terminal state, else `maybeTakeSample`. -/
def Session.takeSample (s : Session) (now : ℕ) : Session :=
  if s.startedAt = 0 ∨ s.finished = true ∨ s.aborted = true then
    s
  else
    s.maybeTakeSample now

/-- `Session.finish` (`session.go`): set `Finished`, stamp `EndedAt`,
release the armed timer (`if s.timerDone != nil { close(s.timerDone) }`).
`finish` is called only from `HandleKey`'s completion check, which
requires a non-Timer mode, and the channel is created only in Timer
mode, so the close here never sees a non-nil — let alone closed —
channel; its panic path is unreachable and not modelled. -/
def Session.finish (s : Session) (now : ℕ) : Session :=
  { s with finished := true, endedAt := now, timerArmed := false }

/-- The field mutations of `Session.Abort` (`session.go`): set
`Aborted`, stamp `EndedAt`, and mark the timer released. In the source
these mutations precede the `close` of the timer channel, so they
describe the session state at the instant the close runs. Note the
source has no terminal-state guard here. -/
def Session.abortState (s : Session) (now : ℕ) : Session :=
  { s with aborted := true, endedAt := now, timerArmed := false }

/-- `Session.Abort` (`session.go`): the mutations of `abortState`, then
`if s.timerDone != nil { close(s.timerDone) }`. Closing an
already-closed channel panics in Go, modelled as `none`: the channel is
created armed, `finish` never reaches a non-nil channel, so the one way
to close it is `Abort` itself — a second `Abort` on an already-aborted
timer-mode session panics. -/
def Session.abort (s : Session) (now : ℕ) : Option Session :=
  if s.timerDone = true then
    if s.timerArmed = true then some (s.abortState now)
    else none
  else some (s.abortState now)

/-- `Session.HandleKey` (`session.go`): ignore events in a terminal
state; start the session on the first key; dispatch on the key type
(runes and backspaces are handled, other key types fall through the
switch); finish when typed length reaches target length outside timer
mode; then `maybeTakeSample`. -/
def Session.handleKey (s : Session) (keyType : ℕ) (r : Char) (now : ℕ) : Session :=
  if s.finished = true ∨ s.aborted = true then
    s
  else
    let s1 := if s.startedAt = 0 then s.start now else s
    let s2 := if keyType = keyTypeRune then s1.handleRune r
              else if keyType = keyTypeBackspace then s1.handleBackspace
              else s1
    let s3 := if s2.mode ≠ Mode.timer ∧ s2.targetRunes.length ≤ s2.typedRunes.length then
                s2.finish now
              else
                s2
    s3.maybeTakeSample now

/-- `Session.GetResult` (`session.go`): append one final sample at the
exact end time whenever the session both started and ended, then compute
duration, accuracy (`correct/total*100`, zero when nothing was typed) and
net/raw WPM over elapsed minutes floored at 0.001. -/
def Session.getResult (s : Session) : SessionResult :=
  let samples := if s.startedAt ≠ 0 ∧ s.endedAt ≠ 0 then
                   s.samples ++ [s.calculateSample (s.endedAt - s.startedAt)]
                 else
                   s.samples
  let duration := s.endedAt - s.startedAt
  let minutes0 : ℚ := (duration : ℚ) / nsPerMinute
  let minutes : ℚ := if minutes0 < 1 / 1000 then 1 / 1000 else minutes0
  let accuracy : ℚ := if 0 < s.totalTyped then
                        (s.correctChars : ℚ) / (s.totalTyped : ℚ) * 100
                      else
                        0
  { mode := s.mode
    startedAt := s.startedAt
    durationNs := duration
    targetLen := s.targetRunes.length
    totalTyped := s.totalTyped
    correctChars := s.correctChars
    wpm := ((s.correctChars : ℚ) / 5) / minutes
    rawWPM := ((s.totalTyped : ℚ) / 5) / minutes
    accuracy := accuracy
    samples := samples }

/-- One externally delivered event, as dispatched by the event loop in
`internal/commands/test/test.go`: a decoded key (`Session.HandleKey`), a
sampling tick (`Session.TakeSample`), or an explicit abort
(`Session.Abort`, applied through its field mutations `abortState`),
each carrying the instant at which it is processed. -/
inductive Event where
  | key (keyType : ℕ) (r : Char) (now : ℕ)
  | tick (now : ℕ)
  | abortEv (now : ℕ)
deriving DecidableEq, Repr

/-- Apply one event to the session state. The abort event applies
`abortState`, the mutations `Session.Abort` performs: when its close
also panics the program stops instead of continuing, so traces that
continue past such an abort only enlarge the set of states quantified
over — no theorem below asserts anything specific to them, and
`Session.abort` itself records where the panic occurs. -/
def Session.step (s : Session) : Event → Session
  | Event.key kt r now => s.handleKey kt r now
  | Event.tick now => s.takeSample now
  | Event.abortEv now => s.abortState now

/-- Apply a sequence of events in order (the single-writer event loop). -/
def Session.run (s : Session) (trace : List Event) : Session :=
  trace.foldl Session.step s

/-- The instant carried by an event. -/
def Event.time : Event → ℕ
  | Event.key _ _ now => now
  | Event.tick now => now
  | Event.abortEv now => now

/-- Well-formed timing of a trace starting no earlier than clock `c`:
event instants are positive (the Go clock never reads the zero time) and
non-decreasing along the trace. -/
def TimesOK : ℕ → List Event → Prop
  | _, [] => True
  | c, e :: t => c ≤ e.time ∧ 0 < e.time ∧ TimesOK e.time t

instance timesOKDecidable : ∀ c t, Decidable (TimesOK c t)
  | _, [] => by unfold TimesOK; exact inferInstance
  | c, e :: t =>
    have : Decidable (TimesOK e.time t) := timesOKDecidable e.time t
    by unfold TimesOK; exact inferInstance

/-! ### General list lemmas used by the invariant proofs -/

/-- Counting under `countP` after a single in-range `set`, in additive
form so it applies to both increments and decrements. -/
theorem countP_set_add {α : Type} (p : α → Bool) (d : α) :
    ∀ (l : List α) (i : ℕ), i < l.length → ∀ v : α,
      (l.set i v).countP p + (if p (l.getD i d) then 1 else 0)
        = l.countP p + (if p v then 1 else 0)
  | [], i, h, v => absurd h (by simp)
  | a :: t, 0, _, v => by
      simp [List.countP_cons]
      omega
  | a :: t, i + 1, h, v => by
      have ih := countP_set_add p d t i (by simpa using h) v
      simp only [List.set_cons_succ, List.countP_cons, List.getD_cons_succ]
      omega

/-- `getD` after setting a different index. -/
theorem getD_set_ne {α : Type} (l : List α) (d : α) {i j : ℕ} (h : i ≠ j) (v : α) :
    (l.set i v).getD j d = l.getD j d := by
  simp [List.getD, List.getElem?_set_ne h]

/-- `getD` after setting the same, in-range index. -/
theorem getD_set_self {α : Type} (l : List α) (d : α) {i : ℕ} (h : i < l.length) (v : α) :
    (l.set i v).getD i d = v := by
  simp [List.getD, List.getElem?_set_self h]

/-- Setting an in-range index to the value it already holds is the
identity. -/
theorem set_getD_self {α : Type} : ∀ (l : List α) (i : ℕ), i < l.length →
    ∀ d : α, l.set i (l.getD i d) = l
  | [], i, h, d => absurd h (by simp)
  | a :: t, 0, _, d => by simp
  | a :: t, i + 1, h, d => by
      simp only [List.set_cons_succ, List.getD_cons_succ]
      rw [set_getD_self t i (by simpa using h) d]

/-! ### Field-preservation lemmas for the session operations -/

@[simp] theorem start_targetRunes (s : Session) (now : ℕ) :
    (s.start now).targetRunes = s.targetRunes := by
  simp only [Session.start]; split <;> rfl

@[simp] theorem start_mode (s : Session) (now : ℕ) :
    (s.start now).mode = s.mode := by
  simp only [Session.start]; split <;> rfl

@[simp] theorem start_timerSeconds (s : Session) (now : ℕ) :
    (s.start now).timerSeconds = s.timerSeconds := by
  simp only [Session.start]; split <;> rfl

@[simp] theorem start_typedRunes (s : Session) (now : ℕ) :
    (s.start now).typedRunes = s.typedRunes := by
  simp only [Session.start]; split <;> rfl

@[simp] theorem start_charStates (s : Session) (now : ℕ) :
    (s.start now).charStates = s.charStates := by
  simp only [Session.start]; split <;> rfl

@[simp] theorem start_startedAt (s : Session) (now : ℕ) :
    (s.start now).startedAt = now := by
  simp only [Session.start]; split <;> rfl

@[simp] theorem start_endedAt (s : Session) (now : ℕ) :
    (s.start now).endedAt = s.endedAt := by
  simp only [Session.start]; split <;> rfl

@[simp] theorem start_finished (s : Session) (now : ℕ) :
    (s.start now).finished = s.finished := by
  simp only [Session.start]; split <;> rfl

@[simp] theorem start_aborted (s : Session) (now : ℕ) :
    (s.start now).aborted = s.aborted := by
  simp only [Session.start]; split <;> rfl

@[simp] theorem start_samples (s : Session) (now : ℕ) :
    (s.start now).samples = s.samples ++ [{ timeMs := 0, wpm := 0, rawWPM := 0 }] := by
  simp only [Session.start]; split <;> rfl

@[simp] theorem start_lastSampleTime (s : Session) (now : ℕ) :
    (s.start now).lastSampleTime = now := by
  simp only [Session.start]; split <;> rfl

@[simp] theorem start_totalTyped (s : Session) (now : ℕ) :
    (s.start now).totalTyped = s.totalTyped := by
  simp only [Session.start]; split <;> rfl

@[simp] theorem start_correctChars (s : Session) (now : ℕ) :
    (s.start now).correctChars = s.correctChars := by
  simp only [Session.start]; split <;> rfl

theorem start_timerArmed (s : Session) (now : ℕ) :
    (s.start now).timerArmed
      = if s.mode = Mode.timer ∧ 0 < s.timerSeconds then true else s.timerArmed := by
  simp only [Session.start]; split <;> simp_all

@[simp] theorem handleRune_targetRunes (s : Session) (r : Char) :
    (s.handleRune r).targetRunes = s.targetRunes := by
  simp only [Session.handleRune]; split <;> [rfl; split <;> rfl]

@[simp] theorem handleRune_mode (s : Session) (r : Char) :
    (s.handleRune r).mode = s.mode := by
  simp only [Session.handleRune]; split <;> [rfl; split <;> rfl]

@[simp] theorem handleRune_timerSeconds (s : Session) (r : Char) :
    (s.handleRune r).timerSeconds = s.timerSeconds := by
  simp only [Session.handleRune]; split <;> [rfl; split <;> rfl]

@[simp] theorem handleRune_startedAt (s : Session) (r : Char) :
    (s.handleRune r).startedAt = s.startedAt := by
  simp only [Session.handleRune]; split <;> [rfl; split <;> rfl]

@[simp] theorem handleRune_endedAt (s : Session) (r : Char) :
    (s.handleRune r).endedAt = s.endedAt := by
  simp only [Session.handleRune]; split <;> [rfl; split <;> rfl]

@[simp] theorem handleRune_finished (s : Session) (r : Char) :
    (s.handleRune r).finished = s.finished := by
  simp only [Session.handleRune]; split <;> [rfl; split <;> rfl]

@[simp] theorem handleRune_aborted (s : Session) (r : Char) :
    (s.handleRune r).aborted = s.aborted := by
  simp only [Session.handleRune]; split <;> [rfl; split <;> rfl]

@[simp] theorem handleRune_samples (s : Session) (r : Char) :
    (s.handleRune r).samples = s.samples := by
  simp only [Session.handleRune]; split <;> [rfl; split <;> rfl]

@[simp] theorem handleRune_lastSampleTime (s : Session) (r : Char) :
    (s.handleRune r).lastSampleTime = s.lastSampleTime := by
  simp only [Session.handleRune]; split <;> [rfl; split <;> rfl]

@[simp] theorem handleRune_timerArmed (s : Session) (r : Char) :
    (s.handleRune r).timerArmed = s.timerArmed := by
  simp only [Session.handleRune]; split <;> [rfl; split <;> rfl]

@[simp] theorem handleBackspace_targetRunes (s : Session) :
    s.handleBackspace.targetRunes = s.targetRunes := by
  simp only [Session.handleBackspace]; split <;> [rfl; split <;> rfl]

@[simp] theorem handleBackspace_mode (s : Session) :
    s.handleBackspace.mode = s.mode := by
  simp only [Session.handleBackspace]; split <;> [rfl; split <;> rfl]

@[simp] theorem handleBackspace_timerSeconds (s : Session) :
    s.handleBackspace.timerSeconds = s.timerSeconds := by
  simp only [Session.handleBackspace]; split <;> [rfl; split <;> rfl]

@[simp] theorem handleBackspace_startedAt (s : Session) :
    s.handleBackspace.startedAt = s.startedAt := by
  simp only [Session.handleBackspace]; split <;> [rfl; split <;> rfl]

@[simp] theorem handleBackspace_endedAt (s : Session) :
    s.handleBackspace.endedAt = s.endedAt := by
  simp only [Session.handleBackspace]; split <;> [rfl; split <;> rfl]

@[simp] theorem handleBackspace_finished (s : Session) :
    s.handleBackspace.finished = s.finished := by
  simp only [Session.handleBackspace]; split <;> [rfl; split <;> rfl]

@[simp] theorem handleBackspace_aborted (s : Session) :
    s.handleBackspace.aborted = s.aborted := by
  simp only [Session.handleBackspace]; split <;> [rfl; split <;> rfl]

@[simp] theorem handleBackspace_samples (s : Session) :
    s.handleBackspace.samples = s.samples := by
  simp only [Session.handleBackspace]; split <;> [rfl; split <;> rfl]

@[simp] theorem handleBackspace_lastSampleTime (s : Session) :
    s.handleBackspace.lastSampleTime = s.lastSampleTime := by
  simp only [Session.handleBackspace]; split <;> [rfl; split <;> rfl]

@[simp] theorem handleBackspace_totalTyped (s : Session) :
    s.handleBackspace.totalTyped = s.totalTyped := by
  simp only [Session.handleBackspace]; split <;> [rfl; split <;> rfl]

@[simp] theorem handleBackspace_timerArmed (s : Session) :
    s.handleBackspace.timerArmed = s.timerArmed := by
  simp only [Session.handleBackspace]; split <;> [rfl; split <;> rfl]

@[simp] theorem maybeTakeSample_targetRunes (s : Session) (now : ℕ) :
    (s.maybeTakeSample now).targetRunes = s.targetRunes := by
  simp only [Session.maybeTakeSample]; split <;> [rfl; split <;> rfl]

@[simp] theorem maybeTakeSample_mode (s : Session) (now : ℕ) :
    (s.maybeTakeSample now).mode = s.mode := by
  simp only [Session.maybeTakeSample]; split <;> [rfl; split <;> rfl]

@[simp] theorem maybeTakeSample_timerSeconds (s : Session) (now : ℕ) :
    (s.maybeTakeSample now).timerSeconds = s.timerSeconds := by
  simp only [Session.maybeTakeSample]; split <;> [rfl; split <;> rfl]

@[simp] theorem maybeTakeSample_typedRunes (s : Session) (now : ℕ) :
    (s.maybeTakeSample now).typedRunes = s.typedRunes := by
  simp only [Session.maybeTakeSample]; split <;> [rfl; split <;> rfl]

@[simp] theorem maybeTakeSample_charStates (s : Session) (now : ℕ) :
    (s.maybeTakeSample now).charStates = s.charStates := by
  simp only [Session.maybeTakeSample]; split <;> [rfl; split <;> rfl]

@[simp] theorem maybeTakeSample_startedAt (s : Session) (now : ℕ) :
    (s.maybeTakeSample now).startedAt = s.startedAt := by
  simp only [Session.maybeTakeSample]; split <;> [rfl; split <;> rfl]

@[simp] theorem maybeTakeSample_endedAt (s : Session) (now : ℕ) :
    (s.maybeTakeSample now).endedAt = s.endedAt := by
  simp only [Session.maybeTakeSample]; split <;> [rfl; split <;> rfl]

@[simp] theorem maybeTakeSample_finished (s : Session) (now : ℕ) :
    (s.maybeTakeSample now).finished = s.finished := by
  simp only [Session.maybeTakeSample]; split <;> [rfl; split <;> rfl]

@[simp] theorem maybeTakeSample_aborted (s : Session) (now : ℕ) :
    (s.maybeTakeSample now).aborted = s.aborted := by
  simp only [Session.maybeTakeSample]; split <;> [rfl; split <;> rfl]

@[simp] theorem maybeTakeSample_totalTyped (s : Session) (now : ℕ) :
    (s.maybeTakeSample now).totalTyped = s.totalTyped := by
  simp only [Session.maybeTakeSample]; split <;> [rfl; split <;> rfl]

@[simp] theorem maybeTakeSample_correctChars (s : Session) (now : ℕ) :
    (s.maybeTakeSample now).correctChars = s.correctChars := by
  simp only [Session.maybeTakeSample]; split <;> [rfl; split <;> rfl]

@[simp] theorem maybeTakeSample_timerArmed (s : Session) (now : ℕ) :
    (s.maybeTakeSample now).timerArmed = s.timerArmed := by
  simp only [Session.maybeTakeSample]; split <;> [rfl; split <;> rfl]

/-! ### The structural invariant of the typing state -/

/-- Number of verdicts that are not `Unattempted`. -/
def countAttempted (l : List CharState) : ℕ :=
  l.countP fun c => decide (¬ c = CharState.unattempted)

/-- Number of verdicts that are `Correct`. -/
def countCorrect (l : List CharState) : ℕ :=
  l.countP fun c => decide (c = CharState.correct)

/-- The structural invariant of a session's typing state: the verdict
list tracks the target length, the typed buffer tracks the attempted
prefix of the verdicts, the correct-counter equals the number of
`Correct` verdicts, and the total-counter dominates the typed length. -/
def Inv (s : Session) : Prop :=
  s.charStates.length = s.targetRunes.length ∧
  s.typedRunes.length ≤ s.charStates.length ∧
  s.typedRunes.length = countAttempted s.charStates ∧
  (∀ i, s.typedRunes.length ≤ i →
    s.charStates.getD i CharState.unattempted = CharState.unattempted) ∧
  (∀ i, i < s.typedRunes.length →
    ¬ s.charStates.getD i CharState.unattempted = CharState.unattempted) ∧
  s.correctChars = (countCorrect s.charStates : ℤ) ∧
  (s.typedRunes.length : ℤ) ≤ s.totalTyped

theorem countAttempted_replicate (n : ℕ) :
    countAttempted (List.replicate n CharState.unattempted) = 0 := by
  induction n with
  | zero => rfl
  | succ n ih => simpa [countAttempted, List.replicate, List.countP_cons] using ih

theorem getD_replicate_unattempted (n i : ℕ) :
    (List.replicate n CharState.unattempted).getD i CharState.unattempted
      = CharState.unattempted := by
  unfold List.getD
  rcases Nat.lt_or_ge i n with h | h
  · simp [List.getElem?_replicate, h]
  · simp [List.getElem?_replicate, Nat.not_lt.mpr h]

theorem Inv_newSession (target : List Char) (mode : Mode) (ts : ℤ) :
    Inv (newSession target mode ts) := by
  refine ⟨by simp [newSession], by simp [newSession], ?_, ?_, ?_, ?_, ?_⟩
  · simp [newSession, countAttempted_replicate]
  · intro i _; simpa [newSession] using getD_replicate_unattempted target.length i
  · intro i hi; simp [newSession] at hi
  · simp [newSession, countCorrect]
    induction target.length with
    | zero => rfl
    | succ n ih => simpa [List.replicate, List.countP_cons] using ih
  · simp [newSession]

theorem Inv_handleRune (s : Session) (r : Char) (h : Inv s) : Inv (s.handleRune r) := by
  obtain ⟨h1, h2, h3, h4, h5, h6, h7⟩ := h
  unfold Session.handleRune
  dsimp only
  split
  · exact ⟨h1, h2, h3, h4, h5, h6, h7⟩
  · rename_i hlt
    rw [Nat.not_le] at hlt
    have hidx : s.typedRunes.length < s.charStates.length := h1 ▸ hlt
    have hold : s.charStates.getD s.typedRunes.length CharState.unattempted
        = CharState.unattempted := h4 _ (le_refl _)
    have hattempted := countP_set_add (fun c => decide (¬ c = CharState.unattempted))
      CharState.unattempted s.charStates s.typedRunes.length hidx
    have hcorrect := countP_set_add (fun c => decide (c = CharState.correct))
      CharState.unattempted s.charStates s.typedRunes.length hidx
    split
    all_goals
      refine ⟨by simpa using h1, ?_, ?_, ?_, ?_, ?_, ?_⟩
    · simpa using hidx
    · have := hattempted CharState.correct
      rw [hold] at this
      simp only [countAttempted] at h3 ⊢
      simp at this h3 ⊢
      omega
    · intro i hi
      simp only [List.length_append, List.length_cons, List.length_nil] at hi
      rw [getD_set_ne _ _ (by omega)]
      exact h4 i (by omega)
    · intro i hi
      simp only [List.length_append, List.length_cons, List.length_nil] at hi
      rcases Nat.lt_or_ge i s.typedRunes.length with h' | h'
      · rw [getD_set_ne _ _ (by omega)]
        exact h5 i h'
      · have : i = s.typedRunes.length := by omega
        subst this
        rw [getD_set_self _ _ hidx]
        simp
    · have := hcorrect CharState.correct
      rw [hold] at this
      simp only [countCorrect] at h6 ⊢
      simp at this h6 ⊢
      omega
    · simp only [List.length_append, List.length_cons, List.length_nil]
      push_cast
      omega
    · simpa using hidx
    · have := hattempted CharState.incorrect
      rw [hold] at this
      simp only [countAttempted] at h3 ⊢
      simp at this h3 ⊢
      omega
    · intro i hi
      simp only [List.length_append, List.length_cons, List.length_nil] at hi
      rw [getD_set_ne _ _ (by omega)]
      exact h4 i (by omega)
    · intro i hi
      simp only [List.length_append, List.length_cons, List.length_nil] at hi
      rcases Nat.lt_or_ge i s.typedRunes.length with h' | h'
      · rw [getD_set_ne _ _ (by omega)]
        exact h5 i h'
      · have : i = s.typedRunes.length := by omega
        subst this
        rw [getD_set_self _ _ hidx]
        simp
    · have := hcorrect CharState.incorrect
      rw [hold] at this
      simp only [countCorrect] at h6 ⊢
      simp at this h6 ⊢
      omega
    · simp only [List.length_append, List.length_cons, List.length_nil]
      push_cast
      omega

theorem Inv_handleBackspace (s : Session) (h : Inv s) : Inv s.handleBackspace := by
  obtain ⟨h1, h2, h3, h4, h5, h6, h7⟩ := h
  unfold Session.handleBackspace
  dsimp only
  split
  · exact ⟨h1, h2, h3, h4, h5, h6, h7⟩
  · rename_i hne
    have hpos : 0 < s.typedRunes.length := Nat.pos_of_ne_zero hne
    have hidx : s.typedRunes.length - 1 < s.charStates.length := by omega
    have hold : ¬ s.charStates.getD (s.typedRunes.length - 1) CharState.unattempted
        = CharState.unattempted := h5 _ (by omega)
    have hattempted := countP_set_add (fun c => decide (¬ c = CharState.unattempted))
      CharState.unattempted s.charStates (s.typedRunes.length - 1) hidx
      CharState.unattempted
    have hcorrect := countP_set_add (fun c => decide (c = CharState.correct))
      CharState.unattempted s.charStates (s.typedRunes.length - 1) hidx
      CharState.unattempted
    split
    all_goals
      refine ⟨by simpa using h1, ?_, ?_, ?_, ?_, ?_, ?_⟩
    · simp; omega
    · simp only [countAttempted] at h3 ⊢
      simp only [List.length_take]
      simp at hattempted h3 ⊢
      rw [if_neg (by simpa using hold)] at hattempted
      omega
    · intro i hi
      simp only [List.length_take] at hi
      rcases eq_or_ne i (s.typedRunes.length - 1) with h' | h'
      · subst h'; rw [getD_set_self _ _ hidx]
      · rw [getD_set_ne _ _ (fun hh => h' hh.symm)]
        exact h4 i (by omega)
    · intro i hi
      simp only [List.length_take] at hi
      rw [getD_set_ne _ _ (by omega)]
      exact h5 i (by omega)
    · rename_i hc
      simp only [countCorrect] at h6 ⊢
      simp at hcorrect h6 ⊢
      rw [if_pos (by simpa using hc)] at hcorrect
      omega
    · simp only [List.length_take]
      push_cast
      omega
    · simp; omega
    · simp only [countAttempted] at h3 ⊢
      simp only [List.length_take]
      simp at hattempted h3 ⊢
      rw [if_neg (by simpa using hold)] at hattempted
      omega
    · intro i hi
      simp only [List.length_take] at hi
      rcases eq_or_ne i (s.typedRunes.length - 1) with h' | h'
      · subst h'; rw [getD_set_self _ _ hidx]
      · rw [getD_set_ne _ _ (fun hh => h' hh.symm)]
        exact h4 i (by omega)
    · intro i hi
      simp only [List.length_take] at hi
      rw [getD_set_ne _ _ (by omega)]
      exact h5 i (by omega)
    · rename_i hc
      simp only [countCorrect] at h6 ⊢
      simp at hcorrect h6 ⊢
      rw [if_neg (by simpa using hc)] at hcorrect
      omega
    · simp only [List.length_take]
      push_cast
      omega

theorem Inv_start (s : Session) (now : ℕ) (h : Inv s) : Inv (s.start now) := by
  unfold Inv at h ⊢
  simpa using h

theorem Inv_finish (s : Session) (now : ℕ) (h : Inv s) : Inv (s.finish now) := by
  unfold Inv at h ⊢
  simpa [Session.finish] using h

theorem Inv_abortState (s : Session) (now : ℕ) (h : Inv s) : Inv (s.abortState now) := by
  unfold Inv at h ⊢
  simpa [Session.abortState] using h

theorem Inv_maybeTakeSample (s : Session) (now : ℕ) (h : Inv s) :
    Inv (s.maybeTakeSample now) := by
  unfold Inv at h ⊢
  simpa using h

theorem Inv_takeSample (s : Session) (now : ℕ) (h : Inv s) : Inv (s.takeSample now) := by
  unfold Session.takeSample
  split
  · exact h
  · exact Inv_maybeTakeSample s now h

theorem Inv_cond (c : Prop) [Decidable c] {a b : Session} (ha : Inv a) (hb : Inv b) :
    Inv (if c then a else b) := by
  split <;> assumption

theorem Inv_handleKey (s : Session) (kt : ℕ) (r : Char) (now : ℕ) (h : Inv s) :
    Inv (s.handleKey kt r now) := by
  unfold Session.handleKey
  split
  · exact h
  · dsimp only
    have h1 : Inv (if s.startedAt = 0 then s.start now else s) :=
      Inv_cond (s.startedAt = 0) (Inv_start s now h) h
    have h2 := Inv_cond (kt = keyTypeRune) (Inv_handleRune _ r h1)
      (Inv_cond (kt = keyTypeBackspace) (Inv_handleBackspace _ h1) h1)
    apply Inv_maybeTakeSample
    exact Inv_cond _ (Inv_finish _ now h2) h2

theorem Inv_step (s : Session) (e : Event) (h : Inv s) : Inv (s.step e) := by
  cases e with
  | key kt r now => exact Inv_handleKey s kt r now h
  | tick now => exact Inv_takeSample s now h
  | abortEv now => exact Inv_abortState s now h

theorem Inv_run : ∀ (trace : List Event) (s : Session), Inv s → Inv (s.run trace)
  | [], s, h => h
  | e :: t, s, h => by
      have := Inv_run t (s.step e) (Inv_step s e h)
      simpa [Session.run] using this

/-! ### Field lemmas for the composite operations -/

@[simp] theorem takeSample_targetRunes (s : Session) (now : ℕ) :
    (s.takeSample now).targetRunes = s.targetRunes := by
  unfold Session.takeSample; split <;> simp

@[simp] theorem takeSample_mode (s : Session) (now : ℕ) :
    (s.takeSample now).mode = s.mode := by
  unfold Session.takeSample; split <;> simp

@[simp] theorem handleKey_targetRunes (s : Session) (kt : ℕ) (r : Char) (now : ℕ) :
    (s.handleKey kt r now).targetRunes = s.targetRunes := by
  unfold Session.handleKey
  split
  · rfl
  · simp [apply_ite Session.targetRunes, Session.finish]

@[simp] theorem handleKey_mode (s : Session) (kt : ℕ) (r : Char) (now : ℕ) :
    (s.handleKey kt r now).mode = s.mode := by
  unfold Session.handleKey
  split
  · rfl
  · simp [apply_ite Session.mode, Session.finish]

@[simp] theorem step_targetRunes (s : Session) (e : Event) :
    (s.step e).targetRunes = s.targetRunes := by
  cases e <;> simp [Session.step, Session.abortState]

@[simp] theorem step_mode (s : Session) (e : Event) :
    (s.step e).mode = s.mode := by
  cases e <;> simp [Session.step, Session.abortState]

@[simp] theorem run_targetRunes : ∀ (trace : List Event) (s : Session),
    (s.run trace).targetRunes = s.targetRunes
  | [], s => rfl
  | e :: t, s => by
      have := run_targetRunes t (s.step e)
      simpa [Session.run] using this

@[simp] theorem run_mode : ∀ (trace : List Event) (s : Session),
    (s.run trace).mode = s.mode
  | [], s => rfl
  | e :: t, s => by
      have := run_mode t (s.step e)
      simpa [Session.run] using this

/-! ### Characterisation lemmas for single operations -/

/-- `handleRune` on a full typed buffer is the identity (the early-return
guard). -/
theorem handleRune_full (s : Session) (r : Char)
    (h : s.targetRunes.length ≤ s.typedRunes.length) : s.handleRune r = s := by
  unfold Session.handleRune
  dsimp only
  rw [if_pos h]

/-- `handleRune` with room left, written out explicitly. -/
theorem handleRune_spec (s : Session) (r : Char)
    (h : s.typedRunes.length < s.targetRunes.length) :
    s.handleRune r =
      if r = s.targetRunes.getD s.typedRunes.length ' ' then
        { s with typedRunes := s.typedRunes ++ [r],
                 totalTyped := s.totalTyped + 1,
                 charStates := s.charStates.set s.typedRunes.length CharState.correct,
                 correctChars := s.correctChars + 1 }
      else
        { s with typedRunes := s.typedRunes ++ [r],
                 totalTyped := s.totalTyped + 1,
                 charStates := s.charStates.set s.typedRunes.length CharState.incorrect } := by
  unfold Session.handleRune
  dsimp only
  rw [if_neg (Nat.not_le.mpr h)]

/-- `handleBackspace` on a non-empty typed buffer, written out
explicitly. -/
theorem handleBackspace_spec (s : Session) (h : ¬ s.typedRunes.length = 0) :
    s.handleBackspace =
      { s with typedRunes := s.typedRunes.take (s.typedRunes.length - 1),
               charStates := s.charStates.set (s.typedRunes.length - 1) CharState.unattempted,
               correctChars := s.correctChars -
                 (if s.charStates.getD (s.typedRunes.length - 1) CharState.unattempted
                    = CharState.correct then 1 else 0) } := by
  unfold Session.handleBackspace
  dsimp only
  rw [if_neg h]
  split
  · rfl
  · simp

/-- `handleBackspace` on an empty typed buffer is the identity. -/
theorem handleBackspace_empty (s : Session) (h : s.typedRunes.length = 0) :
    s.handleBackspace = s := by
  unfold Session.handleBackspace
  dsimp only
  rw [if_pos h]

/-! ### Plain-value lemmas for `getResult` -/

theorem getResult_accuracy (s : Session) :
    s.getResult.accuracy
      = (if 0 < s.totalTyped then (s.correctChars : ℚ) / (s.totalTyped : ℚ) * 100 else 0) :=
  rfl

theorem getResult_wpm (s : Session) :
    s.getResult.wpm
      = ((s.correctChars : ℚ) / 5) /
          (if ((s.endedAt - s.startedAt : ℕ) : ℚ) / nsPerMinute < 1 / 1000 then 1 / 1000
           else ((s.endedAt - s.startedAt : ℕ) : ℚ) / nsPerMinute) :=
  rfl

theorem getResult_rawWPM (s : Session) :
    s.getResult.rawWPM
      = ((s.totalTyped : ℚ) / 5) /
          (if ((s.endedAt - s.startedAt : ℕ) : ℚ) / nsPerMinute < 1 / 1000 then 1 / 1000
           else ((s.endedAt - s.startedAt : ℕ) : ℚ) / nsPerMinute) :=
  rfl

theorem getResult_totalTyped (s : Session) : s.getResult.totalTyped = s.totalTyped := rfl

theorem getResult_correctChars (s : Session) : s.getResult.correctChars = s.correctChars := rfl

theorem getResult_samples (s : Session) :
    s.getResult.samples
      = (if s.startedAt ≠ 0 ∧ s.endedAt ≠ 0 then
           s.samples ++ [s.calculateSample (s.endedAt - s.startedAt)]
         else s.samples) :=
  rfl

/-- The counters of any state satisfying the invariant are ordered:
`0 ≤ correctChars ≤ totalTyped`. -/
theorem counters_ordered (s : Session) (h : Inv s) :
    0 ≤ s.correctChars ∧ s.correctChars ≤ s.totalTyped := by
  obtain ⟨h1, h2, h3, h4, h5, h6, h7⟩ := h
  have hmono : countCorrect s.charStates ≤ countAttempted s.charStates := by
    apply List.countP_mono_left
    intro c _ hc
    simp at hc ⊢
    simp [hc]
  constructor
  · rw [h6]; positivity
  · rw [h6]
    calc ((countCorrect s.charStates : ℤ))
        ≤ (countAttempted s.charStates : ℤ) := by exact_mod_cast hmono
      _ = (s.typedRunes.length : ℤ) := by rw [h3]
      _ ≤ s.totalTyped := h7

/-- The guarded elapsed-minutes quantity is always positive. -/
theorem minutes_pos (q : ℚ) (hq : 0 ≤ q) : 0 < (if q < 1 / 1000 then 1 / 1000 else q) := by
  split
  · norm_num
  · rename_i h
    have h1 : (1 : ℚ) / 1000 ≤ q := not_lt.mp h
    linarith

/-! ### Claim C4 -/

/-- C4: after any sequence of events applied to a fresh session, the
typed-buffer length equals the number of verdicts that are not
`Unattempted`, and the verdict list always has the target's length. -/
theorem c4_typed_matches_attempted (target : List Char) (mode : Mode) (ts : ℤ)
    (trace : List Event) :
    ((newSession target mode ts).run trace).typedRunes.length
        = countAttempted ((newSession target mode ts).run trace).charStates ∧
    ((newSession target mode ts).run trace).charStates.length
        = ((newSession target mode ts).run trace).targetRunes.length := by
  have h := Inv_run trace _ (Inv_newSession target mode ts)
  exact ⟨h.2.2.1, h.1⟩

/-! ### Claim C8 -/

/-- C8: in every mode, `handleRune` on a reachable state whose typed
buffer has reached the target length is the identity (no field changes);
and with room left, the index it uses is in range both for reading
`TargetRunes` and for writing `CharStates`. -/
theorem c8_handleRune_bounds (target : List Char) (mode : Mode) (ts : ℤ)
    (trace : List Event) (r : Char) :
    (((newSession target mode ts).run trace).targetRunes.length ≤
        ((newSession target mode ts).run trace).typedRunes.length →
      ((newSession target mode ts).run trace).handleRune r
        = (newSession target mode ts).run trace) ∧
    (((newSession target mode ts).run trace).typedRunes.length <
        ((newSession target mode ts).run trace).targetRunes.length →
      ((newSession target mode ts).run trace).typedRunes.length <
          ((newSession target mode ts).run trace).targetRunes.length ∧
      ((newSession target mode ts).run trace).typedRunes.length <
          ((newSession target mode ts).run trace).charStates.length) := by
  constructor
  · exact handleRune_full _ r
  · intro h
    have h1 := (Inv_run trace _ (Inv_newSession target mode ts)).1
    exact ⟨h, by omega⟩

/-- Witness for C8 at a concrete reachable state: a filled one-character
session ignores further runes. -/
theorem c8_handleRune_bounds_witness :
    ((newSession ['a'] Mode.timer 30).run
        [Event.key keyTypeRune 'a' 1000000000]).targetRunes.length ≤
      ((newSession ['a'] Mode.timer 30).run
        [Event.key keyTypeRune 'a' 1000000000]).typedRunes.length ∧
    ((newSession ['a'] Mode.timer 30).run
        [Event.key keyTypeRune 'a' 1000000000]).handleRune 'b'
      = (newSession ['a'] Mode.timer 30).run [Event.key keyTypeRune 'a' 1000000000] :=
  ⟨by decide, (c8_handleRune_bounds ['a'] Mode.timer 30
      [Event.key keyTypeRune 'a' 1000000000] 'b').1 (by decide)⟩

/-! ### Claim C5 -/

/-- C5: `handleBackspace` is a no-op on an empty buffer; on a non-empty
buffer it removes exactly the last typed rune, reverts that position's
verdict to `Unattempted`, decrements `correctChars` iff that verdict was
`Correct`, and touches no other position; and on a running state with
room left, `handleRune` then `handleBackspace` restores `TypedRunes`,
`CharStates` and `correctChars` exactly. -/
theorem c5_backspace_spec (s : Session) (ch : Char)
    (hInv : Inv s) (hroom : s.typedRunes.length < s.targetRunes.length) :
    (s.typedRunes.length = 0 → s.handleBackspace = s) ∧
    (¬ s.typedRunes.length = 0 →
      s.handleBackspace.typedRunes = s.typedRunes.dropLast ∧
      s.handleBackspace.charStates
        = s.charStates.set (s.typedRunes.length - 1) CharState.unattempted ∧
      s.handleBackspace.correctChars
        = s.correctChars -
            (if s.charStates.getD (s.typedRunes.length - 1) CharState.unattempted
               = CharState.correct then 1 else 0) ∧
      (∀ i, ¬ i = s.typedRunes.length - 1 →
        s.handleBackspace.charStates.getD i CharState.unattempted
          = s.charStates.getD i CharState.unattempted)) ∧
    ((s.handleRune ch).handleBackspace.typedRunes = s.typedRunes ∧
     (s.handleRune ch).handleBackspace.charStates = s.charStates ∧
     (s.handleRune ch).handleBackspace.correctChars = s.correctChars) := by
  have hidx : s.typedRunes.length < s.charStates.length := by
    have := hInv.1
    omega
  have hold : s.charStates.getD s.typedRunes.length CharState.unattempted
      = CharState.unattempted := hInv.2.2.2.1 _ (le_refl _)
  refine ⟨handleBackspace_empty s, ?_, ?_⟩
  · intro h
    rw [handleBackspace_spec s h]
    refine ⟨(List.dropLast_eq_take s.typedRunes).symm, rfl, rfl, ?_⟩
    intro i hi
    exact getD_set_ne _ _ (fun hh => hi hh.symm) _
  · rw [handleRune_spec s ch hroom]
    have hcs : s.charStates.set s.typedRunes.length CharState.unattempted = s.charStates := by
      conv_lhs => rw [← hold]
      exact set_getD_self s.charStates s.typedRunes.length hidx CharState.unattempted
    split
    · rw [handleBackspace_spec _ (by simp)]
      dsimp only
      refine ⟨?_, ?_, ?_⟩
      · simp
      · simp only [List.length_append, List.length_cons, List.length_nil,
          Nat.add_sub_cancel]
        rw [List.set_set]
        simpa using hcs
      · simp only [List.length_append, List.length_cons, List.length_nil,
          Nat.add_sub_cancel]
        rw [getD_set_self _ _ (by simpa using hidx)]
        simp
    · rw [handleBackspace_spec _ (by simp)]
      dsimp only
      refine ⟨?_, ?_, ?_⟩
      · simp
      · simp only [List.length_append, List.length_cons, List.length_nil,
          Nat.add_sub_cancel]
        rw [List.set_set]
        simpa using hcs
      · simp only [List.length_append, List.length_cons, List.length_nil,
          Nat.add_sub_cancel]
        rw [getD_set_self _ _ (by simpa using hidx)]
        simp

/-- Witness for C5 at a concrete state: one correct keystroke into a
fresh two-character session, then the round trip. -/
theorem c5_backspace_spec_witness :
    Inv (newSession ['h', 'i'] Mode.words 0) ∧
    (newSession ['h', 'i'] Mode.words 0).typedRunes.length
        < (newSession ['h', 'i'] Mode.words 0).targetRunes.length ∧
    ((newSession ['h', 'i'] Mode.words 0).handleRune
        'h').handleBackspace.correctChars
      = (newSession ['h', 'i'] Mode.words 0).correctChars := by
  have h1 : Inv (newSession ['h', 'i'] Mode.words 0) :=
    Inv_newSession ['h', 'i'] Mode.words 0
  have h2 : (newSession ['h', 'i'] Mode.words 0).typedRunes.length
      < (newSession ['h', 'i'] Mode.words 0).targetRunes.length := by decide
  exact ⟨h1, h2, (c5_backspace_spec (newSession ['h', 'i'] Mode.words 0) 'h' h1 h2).2.2.2.2⟩

/-! ### Claim C7 -/

/-- C7: for every session built by `NewSession` and every event sequence,
the final result satisfies `0 ≤ Accuracy ≤ 100`, `WPM ≥ 0`,
`RawWPM ≥ 0` and `RawWPM ≥ WPM`; the underlying counter invariant
`0 ≤ correctChars ≤ totalTyped` survives every event. -/
theorem c7_result_bounds (target : List Char) (mode : Mode) (ts : ℤ)
    (trace : List Event) :
    0 ≤ ((newSession target mode ts).run trace).getResult.accuracy ∧
    ((newSession target mode ts).run trace).getResult.accuracy ≤ 100 ∧
    0 ≤ ((newSession target mode ts).run trace).getResult.wpm ∧
    0 ≤ ((newSession target mode ts).run trace).getResult.rawWPM ∧
    ((newSession target mode ts).run trace).getResult.wpm
      ≤ ((newSession target mode ts).run trace).getResult.rawWPM := by
  have hInv := Inv_run trace _ (Inv_newSession target mode ts)
  obtain ⟨hc0, hct⟩ := counters_ordered _ hInv
  set f := (newSession target mode ts).run trace with hf
  have hcq : (0 : ℚ) ≤ (f.correctChars : ℚ) := by exact_mod_cast hc0
  have htq : (f.correctChars : ℚ) ≤ (f.totalTyped : ℚ) := by exact_mod_cast hct
  have ht0 : (0 : ℚ) ≤ (f.totalTyped : ℚ) := le_trans hcq htq
  have hm := minutes_pos (((f.endedAt - f.startedAt : ℕ) : ℚ) / nsPerMinute)
    (div_nonneg (by positivity) (by norm_num [nsPerMinute]))
  refine ⟨?_, ?_, ?_, ?_, ?_⟩
  · rw [getResult_accuracy]
    split
    · rename_i h
      have htpos : (0 : ℚ) < (f.totalTyped : ℚ) := by exact_mod_cast h
      exact mul_nonneg (div_nonneg hcq htpos.le) (by norm_num)
    · exact le_refl 0
  · rw [getResult_accuracy]
    split
    · rename_i h
      have htpos : (0 : ℚ) < (f.totalTyped : ℚ) := by exact_mod_cast h
      have h1 : (f.correctChars : ℚ) / (f.totalTyped : ℚ) ≤ 1 :=
        (div_le_one htpos).mpr htq
      linarith
    · norm_num
  · rw [getResult_wpm]
    exact div_nonneg (div_nonneg hcq (by norm_num)) hm.le
  · rw [getResult_rawWPM]
    exact div_nonneg (div_nonneg ht0 (by norm_num)) hm.le
  · rw [getResult_wpm, getResult_rawWPM]
    apply (div_le_div_right hm).mpr
    apply (div_le_div_right (by norm_num : (0 : ℚ) < 5)).mpr
    exact htq

/-! ### Claim C6 -/

/-- `HandleKey` on a non-terminal state with a rune key, with the guard
and the dispatch resolved. -/
theorem handleKey_rune_progress (s : Session) (c : Char) (t : ℕ)
    (hf : s.finished = false) (ha : s.aborted = false) :
    s.handleKey keyTypeRune c t =
      (if ((if s.startedAt = 0 then s.start t else s).handleRune c).mode ≠ Mode.timer ∧
          ((if s.startedAt = 0 then s.start t else s).handleRune c).targetRunes.length ≤
            ((if s.startedAt = 0 then s.start t else s).handleRune c).typedRunes.length then
        (((if s.startedAt = 0 then s.start t else s).handleRune c).finish t).maybeTakeSample t
      else
        ((if s.startedAt = 0 then s.start t else s).handleRune c).maybeTakeSample t) := by
  unfold Session.handleKey
  rw [if_neg (by simp [hf, ha])]
  dsimp only
  rw [if_pos rfl]
  exact apply_ite (fun x : Session => x.maybeTakeSample t) _ _ _

/-- Typing the remaining target characters, one `HandleKey` per rune,
drives a running non-Timer session to `Finished`, adding one to each
counter per keystroke. -/
theorem typeExact_aux :
    ∀ (ps : List (Char × ℕ)) (s : Session),
      ¬ s.mode = Mode.timer → s.finished = false → s.aborted = false →
      ps.map Prod.fst = s.targetRunes.drop s.typedRunes.length →
      s.typedRunes.length < s.targetRunes.length →
      (s.run (ps.map fun p => Event.key keyTypeRune p.1 p.2)).finished = true ∧
      (s.run (ps.map fun p => Event.key keyTypeRune p.1 p.2)).totalTyped
          = s.totalTyped + ps.length ∧
      (s.run (ps.map fun p => Event.key keyTypeRune p.1 p.2)).correctChars
          = s.correctChars + ps.length
  | [], s => by
      intro _ _ _ hps hlt
      have : s.targetRunes.drop s.typedRunes.length = [] := by simpa using hps.symm
      rw [List.drop_eq_nil_iff] at this
      omega
  | (c, t) :: rest, s => by
      intro hmode hf ha hps hlt
      have hdrop := List.drop_eq_getElem_cons (l := s.targetRunes) hlt
      rw [hdrop] at hps
      simp only [List.map_cons, List.cons.injEq] at hps
      obtain ⟨hc, hrest⟩ := hps
      have hcgetD : c = s.targetRunes.getD s.typedRunes.length ' ' := by
        rw [List.getD_eq_getElem s.targetRunes ' ' hlt]
        exact hc
      simp only [List.map_cons]
      rw [show (s.run (Event.key keyTypeRune c t :: rest.map fun p =>
            Event.key keyTypeRune p.1 p.2))
          = ((s.step (Event.key keyTypeRune c t)).run
              (rest.map fun p => Event.key keyTypeRune p.1 p.2)) from rfl]
      rw [show s.step (Event.key keyTypeRune c t) = s.handleKey keyTypeRune c t from rfl]
      rw [handleKey_rune_progress s c t hf ha]
      generalize hs1 : (if s.startedAt = 0 then s.start t else s) = s1
      have hfields : s1.typedRunes = s.typedRunes ∧ s1.targetRunes = s.targetRunes ∧
          s1.mode = s.mode ∧ s1.finished = s.finished ∧ s1.aborted = s.aborted ∧
          s1.totalTyped = s.totalTyped ∧ s1.correctChars = s.correctChars := by
        rw [← hs1]; split <;> simp
      obtain ⟨t1, t2, t3, t4, t5, t6, t7⟩ := hfields
      have hroom1 : s1.typedRunes.length < s1.targetRunes.length := by
        rw [t1, t2]; exact hlt
      rw [handleRune_spec s1 c hroom1]
      have hcond : c = s1.targetRunes.getD s1.typedRunes.length ' ' := by
        rw [t2, t1, ← hcgetD]
      rw [if_pos hcond]
      rcases eq_or_ne rest ([] : List (Char × ℕ)) with hrnil | hrne
      · subst hrnil
        have hlast : s.targetRunes.length ≤ s.typedRunes.length + 1 := by
          have : s.targetRunes.drop (s.typedRunes.length + 1) = [] := by
            simpa using hrest.symm
          rw [List.drop_eq_nil_iff] at this
          omega
        split
        · refine ⟨?_, ?_, ?_⟩ <;> simp [Session.run, Session.finish, t6, t7]
        · rename_i hcon
          exfalso
          apply hcon
          constructor
          · simpa [t3] using hmode
          · simp [t1, t2]
            omega
      · have hmore : s.typedRunes.length + 1 < s.targetRunes.length := by
          have hne2 : s.targetRunes.drop (s.typedRunes.length + 1) ≠ [] := by
            rw [← hrest]
            simpa using hrne
          rw [ne_eq, List.drop_eq_nil_iff] at hne2
          omega
        split
        · rename_i hcon
          exfalso
          obtain ⟨-, hcon2⟩ := hcon
          simp [t1, t2] at hcon2
          omega
        · have ih := typeExact_aux rest
            ((({ s1 with
                 typedRunes := s1.typedRunes ++ [c],
                 totalTyped := s1.totalTyped + 1,
                 charStates := s1.charStates.set s1.typedRunes.length CharState.correct,
                 correctChars := s1.correctChars + 1 } : Session)).maybeTakeSample t)
            (by simpa [t3] using hmode)
            (by simpa using hf ▸ t4)
            (by simpa using ha ▸ t5)
            (by simp [t1, t2]; exact hrest)
            (by simp [t1, t2]; omega)
          obtain ⟨ih1, ih2, ih3⟩ := ih
          refine ⟨ih1, ?_, ?_⟩
          · rw [ih2]
            simp [t6]
            omega
          · rw [ih3]
            simp [t7]
            omega

/-- C6: typing the target text exactly (one rune key per character, any
event times) in a non-Timer session finishes the session with accuracy
100 and `TotalTyped = CorrectChars = len(target)`. -/
theorem c6_exact_typing (target : List Char) (mode : Mode) (ts : ℤ)
    (ps : List (Char × ℕ))
    (hmode : ¬ mode = Mode.timer) (hne : ¬ target = [])
    (hps : ps.map Prod.fst = target) :
    ((newSession target mode ts).run
        (ps.map fun p => Event.key keyTypeRune p.1 p.2)).finished = true ∧
    ((newSession target mode ts).run
        (ps.map fun p => Event.key keyTypeRune p.1 p.2)).getResult.accuracy = 100 ∧
    ((newSession target mode ts).run
        (ps.map fun p => Event.key keyTypeRune p.1 p.2)).getResult.totalTyped
      = (target.length : ℤ) ∧
    ((newSession target mode ts).run
        (ps.map fun p => Event.key keyTypeRune p.1 p.2)).getResult.correctChars
      = (target.length : ℤ) := by
  have hlen : 0 < target.length := List.length_pos.mpr hne
  have haux := typeExact_aux ps (newSession target mode ts)
    (by simpa [newSession] using hmode)
    (by simp [newSession])
    (by simp [newSession])
    (by simpa [newSession] using hps)
    (by simpa [newSession] using hlen)
  obtain ⟨h1, h2, h3⟩ := haux
  rw [show (newSession target mode ts).totalTyped = 0 from rfl, zero_add] at h2
  rw [show (newSession target mode ts).correctChars = 0 from rfl, zero_add] at h3
  have hplen : ps.length = target.length := by rw [← hps]; simp
  have htlen : ((newSession target mode ts).run
      (ps.map fun p => Event.key keyTypeRune p.1 p.2)).totalTyped = (target.length : ℤ) := by
    rw [h2, hplen]
  have hclen : ((newSession target mode ts).run
      (ps.map fun p => Event.key keyTypeRune p.1 p.2)).correctChars = (target.length : ℤ) := by
    rw [h3, hplen]
  refine ⟨h1, ?_, ?_, ?_⟩
  · rw [getResult_accuracy, htlen, hclen]
    rw [if_pos (by exact_mod_cast hlen)]
    have hnz : ((target.length : ℤ) : ℚ) ≠ 0 := by
      have : (0 : ℤ) < (target.length : ℤ) := by exact_mod_cast hlen
      exact_mod_cast this.ne.symm
    rw [div_self hnz]
    norm_num
  · rw [getResult_totalTyped, htlen]
  · rw [getResult_correctChars, hclen]

/-- Witness for C6: the spec's own scenario shape, target `"cat"` typed
exactly. -/
theorem c6_exact_typing_witness :
    ¬ Mode.words = Mode.timer ∧ ¬ (['c', 'a', 't'] : List Char) = [] ∧
    ([('c', 1000000000), ('a', 1100000000), ('t', 1200000000)].map Prod.fst
        = (['c', 'a', 't'] : List Char)) ∧
    ((newSession ['c', 'a', 't'] Mode.words 0).run
        ([('c', 1000000000), ('a', 1100000000), ('t', 1200000000)].map
          fun p => Event.key keyTypeRune p.1 p.2)).getResult.accuracy = 100 :=
  ⟨by decide, by decide, by decide,
    (c6_exact_typing ['c', 'a', 't'] Mode.words 0
      [('c', 1000000000), ('a', 1100000000), ('t', 1200000000)]
      (by decide) (by decide) (by decide)).2.1⟩

/-! ### Claim C1 -/

/-- C1 counterexample: target `"ab"`, type `'x'` (wrong), backspace,
then `"ab"` correctly. The final verdict state is all-`Correct` and the
session finished, yet `GetResult` reports accuracy `2/3·100 ≠ 100`,
because `totalTyped` counts the corrected keystroke. -/
theorem c1_counterexample :
    ((newSession ['a', 'b'] Mode.words 0).run
        [Event.key keyTypeRune 'x' 1000000000,
         Event.key keyTypeBackspace ' ' 1100000000,
         Event.key keyTypeRune 'a' 1200000000,
         Event.key keyTypeRune 'b' 1300000000]).finished = true ∧
    ((newSession ['a', 'b'] Mode.words 0).run
        [Event.key keyTypeRune 'x' 1000000000,
         Event.key keyTypeBackspace ' ' 1100000000,
         Event.key keyTypeRune 'a' 1200000000,
         Event.key keyTypeRune 'b' 1300000000]).charStates
      = [CharState.correct, CharState.correct] ∧
    ¬ ((newSession ['a', 'b'] Mode.words 0).run
        [Event.key keyTypeRune 'x' 1000000000,
         Event.key keyTypeBackspace ' ' 1100000000,
         Event.key keyTypeRune 'a' 1200000000,
         Event.key keyTypeRune 'b' 1300000000]).getResult.accuracy = 100 := by
  refine ⟨rfl, rfl, ?_⟩
  have h : ((newSession ['a', 'b'] Mode.words 0).run
      [Event.key keyTypeRune 'x' 1000000000,
       Event.key keyTypeBackspace ' ' 1100000000,
       Event.key keyTypeRune 'a' 1200000000,
       Event.key keyTypeRune 'b' 1300000000]).getResult.accuracy
      = ((2 : ℤ) : ℚ) / ((3 : ℤ) : ℚ) * 100 := rfl
  rw [h]
  norm_num

/-- C1 amended: for a session whose final verdict state is all-`Correct`,
`GetResult` reports `Accuracy = 100·len(target)/totalTyped`, and that
equals `100` exactly when `totalTyped = len(target)`, i.e. when no
incorrect keystroke ever occurred: corrected errors stay in `totalTyped`
and do lower accuracy. -/
theorem c1_amended_accuracy (target : List Char) (mode : Mode) (ts : ℤ)
    (trace : List Event)
    (hne : ¬ target = [])
    (hall : ∀ i, i < ((newSession target mode ts).run trace).charStates.length →
      ((newSession target mode ts).run trace).charStates.getD i CharState.unattempted
        = CharState.correct) :
    ((newSession target mode ts).run trace).getResult.accuracy
        = 100 * (target.length : ℚ) /
            ((((newSession target mode ts).run trace).totalTyped : ℤ) : ℚ) ∧
    (((newSession target mode ts).run trace).getResult.accuracy = 100 ↔
      ((newSession target mode ts).run trace).totalTyped = (target.length : ℤ)) := by
  have hInv := Inv_run trace _ (Inv_newSession target mode ts)
  obtain ⟨h1, h2, h3, h4, h5, h6, h7⟩ := hInv
  have htgt : ((newSession target mode ts).run trace).targetRunes = target :=
    run_targetRunes trace _
  have hcslen : ((newSession target mode ts).run trace).charStates.length
      = target.length := by rw [h1, htgt]
  have hcount : countCorrect ((newSession target mode ts).run trace).charStates
      = target.length := by
    unfold countCorrect
    rw [← hcslen]
    rw [List.countP_eq_length]
    intro a ha
    obtain ⟨i, hi, rfl⟩ := List.mem_iff_getElem.mp ha
    have := hall i hi
    rw [List.getD_eq_getElem _ _ hi] at this
    simp [this]
  have hattcount : countAttempted ((newSession target mode ts).run trace).charStates
      = target.length := by
    unfold countAttempted
    rw [← hcslen]
    rw [List.countP_eq_length]
    intro a ha
    obtain ⟨i, hi, rfl⟩ := List.mem_iff_getElem.mp ha
    have := hall i hi
    rw [List.getD_eq_getElem _ _ hi] at this
    simp [this]
  have hcorrect : ((newSession target mode ts).run trace).correctChars
      = (target.length : ℤ) := by rw [h6, hcount]
  have htotal : (target.length : ℤ) ≤ ((newSession target mode ts).run trace).totalTyped := by
    have := h7
    rw [h3, hattcount] at this
    exact this
  have hlen : 0 < target.length := List.length_pos.mpr hne
  have htpos : (0 : ℤ) < ((newSession target mode ts).run trace).totalTyped := by omega
  have htq : (0 : ℚ) < ((((newSession target mode ts).run trace).totalTyped : ℤ) : ℚ) := by
    exact_mod_cast htpos
  constructor
  · rw [getResult_accuracy, if_pos htpos, hcorrect]
    push_cast
    ring
  · rw [getResult_accuracy, if_pos htpos, hcorrect]
    rw [div_mul_eq_mul_div, div_eq_iff htq.ne.symm]
    constructor
    · intro hh
      have : ((target.length : ℤ) : ℚ)
          = ((((newSession target mode ts).run trace).totalTyped : ℤ) : ℚ) := by
        push_cast at hh ⊢
        linarith
      exact_mod_cast this.symm
    · intro hh
      rw [hh]
      push_cast
      ring

/-- Witness for the amended C1 at the counterexample trace itself:
`totalTyped = 3 ≠ 2 = len(target)`, so accuracy is `100·2/3`. -/
theorem c1_amended_accuracy_witness :
    ¬ (['a', 'b'] : List Char) = [] ∧
    ((newSession ['a', 'b'] Mode.words 0).run
        [Event.key keyTypeRune 'x' 1000000000,
         Event.key keyTypeBackspace ' ' 1050000000,
         Event.key keyTypeRune 'a' 1100000000,
         Event.key keyTypeRune 'b' 1150000000]).getResult.accuracy
      = 100 * ((['a', 'b'] : List Char).length : ℚ) /
          ((((newSession ['a', 'b'] Mode.words 0).run
              [Event.key keyTypeRune 'x' 1000000000,
               Event.key keyTypeBackspace ' ' 1050000000,
               Event.key keyTypeRune 'a' 1100000000,
               Event.key keyTypeRune 'b' 1150000000]).totalTyped : ℤ) : ℚ) :=
  ⟨by decide,
    (c1_amended_accuracy ['a', 'b'] Mode.words 0
      [Event.key keyTypeRune 'x' 1000000000,
       Event.key keyTypeBackspace ' ' 1050000000,
       Event.key keyTypeRune 'a' 1100000000,
       Event.key keyTypeRune 'b' 1150000000]
      (by decide)
      (by intro i hi
          have h2 : i < 2 := by
            simpa using hi
          interval_cases i <;> rfl)).1⟩

/-! ### Claim C3 -/

/-- C3 counterexample: `Abort` is not guarded by the terminal-state
check. Finishing a one-character words-mode session (timer channel nil,
so the abort completes without panicking) and then calling `Abort`
mutates the state and leaves `Finished` and `Aborted` both `true`. -/
theorem c3_counterexample :
    ((newSession ['a'] Mode.words 0).run
        [Event.key keyTypeRune 'a' 1000000000]).finished = true ∧
    ((newSession ['a'] Mode.words 0).run
        [Event.key keyTypeRune 'a' 1000000000]).abort 2000000000
      = some (((newSession ['a'] Mode.words 0).run
          [Event.key keyTypeRune 'a' 1000000000]).abortState 2000000000) ∧
    (((newSession ['a'] Mode.words 0).run
        [Event.key keyTypeRune 'a' 1000000000]).abortState 2000000000).aborted = true ∧
    (((newSession ['a'] Mode.words 0).run
        [Event.key keyTypeRune 'a' 1000000000]).abortState 2000000000).finished = true ∧
    ¬ (((newSession ['a'] Mode.words 0).run
        [Event.key keyTypeRune 'a' 1000000000]).abortState 2000000000
      = (newSession ['a'] Mode.words 0).run [Event.key keyTypeRune 'a' 1000000000]) := by
  refine ⟨rfl, rfl, rfl, rfl, ?_⟩
  intro h
  have h2 := congrArg Session.aborted h
  rw [show (((newSession ['a'] Mode.words 0).run
      [Event.key keyTypeRune 'a' 1000000000]).abortState 2000000000).aborted
      = true from rfl] at h2
  rw [show ((newSession ['a'] Mode.words 0).run
      [Event.key keyTypeRune 'a' 1000000000]).aborted = false from rfl] at h2
  exact Bool.noConfusion h2

/-- C3 amended: in a terminal state, `HandleKey` (any key type) and
`TakeSample` are exact no-ops. `Abort`, however, is unguarded: its field
mutations (set `Aborted`, restamp `EndedAt`, release the timer) always
run, so when no timer channel exists (words/quote mode, or a timer
session that never started) an abort after a finish completes cleanly
and leaves both terminal flags set — while on a session whose timer
channel exists but is already closed (an already-aborted timer-mode
session) the `close(s.timerDone)` panics. -/
theorem c3_amended_terminal (s : Session) (kt : ℕ) (r : Char) (now : ℕ)
    (h : s.finished = true ∨ s.aborted = true) :
    s.handleKey kt r now = s ∧
    s.takeSample now = s ∧
    (s.timerDone = false →
      s.abort now
        = some { s with aborted := true, endedAt := now, timerArmed := false }) ∧
    (s.timerDone = true → s.timerArmed = false → s.abort now = none) := by
  refine ⟨?_, ?_, ?_, ?_⟩
  · unfold Session.handleKey
    rw [if_pos h]
  · unfold Session.takeSample
    rw [if_pos (Or.inr h)]
  · intro hd
    unfold Session.abort
    rw [if_neg (by simp [hd])]
    rfl
  · intro hd hna
    unfold Session.abort
    rw [if_pos hd, if_neg (by simp [hna])]

/-- Witness for the amended C3, exercising both post-terminal branches:
a finished words-mode session ignores a further key, and on an aborted
timer-mode session — its channel created by the first keystroke and
closed by the first abort — a second `Abort` panics (`none`). -/
theorem c3_amended_terminal_witness :
    (((newSession ['a'] Mode.words 0).run
        [Event.key keyTypeRune 'a' 1000000000]).finished = true ∨
     ((newSession ['a'] Mode.words 0).run
        [Event.key keyTypeRune 'a' 1000000000]).aborted = true) ∧
    ((newSession ['a'] Mode.words 0).run
        [Event.key keyTypeRune 'a' 1000000000]).handleKey keyTypeRune 'z' 3000000000
      = (newSession ['a'] Mode.words 0).run [Event.key keyTypeRune 'a' 1000000000] ∧
    ((((newSession ['a', 'b'] Mode.timer 30).run
        [Event.key keyTypeRune 'a' 1000000000]).abortState 2000000000).finished = true ∨
     (((newSession ['a', 'b'] Mode.timer 30).run
        [Event.key keyTypeRune 'a' 1000000000]).abortState 2000000000).aborted = true) ∧
    (((newSession ['a', 'b'] Mode.timer 30).run
        [Event.key keyTypeRune 'a' 1000000000]).abortState 2000000000).abort 3000000000
      = none :=
  ⟨Or.inl rfl,
    (c3_amended_terminal ((newSession ['a'] Mode.words 0).run
        [Event.key keyTypeRune 'a' 1000000000]) keyTypeRune 'z' 3000000000
      (Or.inl rfl)).1,
    Or.inr rfl,
    (c3_amended_terminal (((newSession ['a', 'b'] Mode.timer 30).run
        [Event.key keyTypeRune 'a' 1000000000]).abortState 2000000000)
      keyTypeRune 'z' 3000000000 (Or.inr rfl)).2.2.2 rfl rfl⟩

/-! ### Claim C10 -/

/-- `maybeTakeSample` at the very instant of the last sample is a no-op
(the 500ms interval has not passed). -/
theorem maybeTakeSample_at_lastSampleTime (s : Session) (now : ℕ)
    (h : s.lastSampleTime = now) : s.maybeTakeSample now = s := by
  unfold Session.maybeTakeSample
  rw [h, Nat.sub_self]
  simp [sampleIntervalNs]

/-- C10: the first `HandleKey` on a fresh session — whatever the key
type, including a backspace on the empty buffer — starts the session:
it stamps `StartedAt = now`, makes the sample list exactly the initial
`{TimeMs 0, WPM 0, RawWPM 0}` sample, and arms the duration timer
exactly when the mode is Timer with a positive duration. -/
theorem c10_first_key_starts (s : Session) (kt : ℕ) (r : Char) (now : ℕ)
    (h0 : s.startedAt = 0) (hf : s.finished = false) (ha : s.aborted = false)
    (hs : s.samples = []) (harm : s.timerArmed = false) (hnow : ¬ now = 0) :
    (s.handleKey kt r now).startedAt = now ∧
    (s.handleKey kt r now).samples = [{ timeMs := 0, wpm := 0, rawWPM := 0 }] ∧
    ((s.handleKey kt r now).timerArmed = true ↔
      (s.mode = Mode.timer ∧ 0 < s.timerSeconds)) := by
  unfold Session.handleKey
  rw [if_neg (by simp [hf, ha])]
  dsimp only
  rw [if_pos h0]
  generalize hs2 : (if kt = keyTypeRune then (s.start now).handleRune r
      else if kt = keyTypeBackspace then (s.start now).handleBackspace
      else (s.start now)) = s2
  have h2 : s2.startedAt = now ∧ s2.lastSampleTime = now ∧
      s2.samples = [{ timeMs := 0, wpm := 0, rawWPM := 0 }] ∧
      s2.timerArmed = (if s.mode = Mode.timer ∧ 0 < s.timerSeconds then true
        else s.timerArmed) ∧
      s2.mode = s.mode := by
    rw [← hs2]
    split
    · simp [hs, start_timerArmed]
    · split
      · simp [hs, start_timerArmed]
      · simp [hs, start_timerArmed]
  obtain ⟨p1, p2, p3, p4, p5⟩ := h2
  generalize hs3 : (if s2.mode ≠ Mode.timer ∧ s2.targetRunes.length ≤ s2.typedRunes.length
      then s2.finish now else s2) = s3
  have h3 : s3.startedAt = now ∧ s3.lastSampleTime = now ∧
      s3.samples = [{ timeMs := 0, wpm := 0, rawWPM := 0 }] := by
    rw [← hs3]
    split
    · simp [Session.finish, p1, p2, p3]
    · exact ⟨p1, p2, p3⟩
  obtain ⟨q1, q2, q3⟩ := h3
  rw [maybeTakeSample_at_lastSampleTime s3 now q2]
  refine ⟨q1, q3, ?_⟩
  rcases Classical.em (s.mode = Mode.timer ∧ 0 < s.timerSeconds) with hc | hc
  · have hs3eq : s3 = s2 := by
      rw [← hs3]
      rw [if_neg (by simp [p5, hc.1])]
    rw [hs3eq]
    rw [p4, if_pos hc]
    simp [hc]
  · constructor
    · intro harm3
      exfalso
      have : s3.timerArmed = true := harm3
      rw [← hs3] at this
      rcases Classical.em (s2.mode ≠ Mode.timer ∧ s2.targetRunes.length ≤ s2.typedRunes.length)
        with hcc | hcc
      · rw [if_pos hcc] at this
        simp [Session.finish] at this
      · rw [if_neg hcc] at this
        rw [p4, if_neg hc, harm] at this
        exact Bool.noConfusion this
    · intro hcon
      exact absurd hcon hc

/-- Witness for C10: a fresh one-character timer session started by a
backspace on the empty buffer. -/
theorem c10_first_key_starts_witness :
    (newSession ['a'] Mode.timer 30).startedAt = 0 ∧
    ((newSession ['a'] Mode.timer 30).handleKey keyTypeBackspace ' ' 1000000000).startedAt
      = 1000000000 ∧
    (((newSession ['a'] Mode.timer 30).handleKey keyTypeBackspace ' ' 1000000000).timerArmed
        = true ↔
      ((newSession ['a'] Mode.timer 30).mode = Mode.timer ∧
        0 < (newSession ['a'] Mode.timer 30).timerSeconds)) :=
  ⟨rfl,
    (c10_first_key_starts (newSession ['a'] Mode.timer 30) keyTypeBackspace ' ' 1000000000
      rfl rfl rfl rfl rfl (by decide)).1,
    (c10_first_key_starts (newSession ['a'] Mode.timer 30) keyTypeBackspace ' ' 1000000000
      rfl rfl rfl rfl rfl (by decide)).2.2⟩

/-! ### Claim C2: the sampling clock invariant -/

/-- The sample sequence is non-decreasing in `TimeMs`. -/
def sampleTimesMono (l : List Sample) : Prop :=
  List.Chain' (fun a b => a.timeMs ≤ b.timeMs) l

/-- The clock invariant: all recorded instants are bounded by the current
clock `c`, the sample list is empty before start, starts with the
`{0,0,0}` sample once started, is non-decreasing in `TimeMs` with its
last entry bounded by the elapsed time of the last sampling instant, the
end stamp exists exactly in terminal states, and sampling never outruns
the end stamp. -/
def ClockInv (s : Session) (c : ℕ) : Prop :=
  s.startedAt ≤ c ∧
  s.lastSampleTime ≤ c ∧
  s.endedAt ≤ c ∧
  s.startedAt ≤ s.lastSampleTime ∧
  (s.startedAt = 0 → s.samples = [] ∧ s.lastSampleTime = 0) ∧
  (¬ s.startedAt = 0 → s.samples.head? = some { timeMs := 0, wpm := 0, rawWPM := 0 }) ∧
  sampleTimesMono s.samples ∧
  (∀ a, s.samples.getLast? = some a →
    a.timeMs ≤ (((s.lastSampleTime - s.startedAt) / nsPerMs : ℕ) : ℤ)) ∧
  (s.finished = false → s.aborted = false → s.endedAt = 0) ∧
  (¬ s.endedAt = 0 → s.lastSampleTime ≤ s.endedAt ∧ s.startedAt ≤ s.endedAt)

theorem calculateSample_timeMs (s : Session) (e : ℕ) :
    (s.calculateSample e).timeMs = ((e / nsPerMs : ℕ) : ℤ) := rfl

theorem ClockInv_mono (s : Session) {c c' : ℕ} (hcc : c ≤ c') (h : ClockInv s c) :
    ClockInv s c' := by
  obtain ⟨h1, h2, h3, h4, h5, h6, h7, h8, h9, h10⟩ := h
  exact ⟨le_trans h1 hcc, le_trans h2 hcc, le_trans h3 hcc, h4, h5, h6, h7, h8, h9, h10⟩

theorem ClockInv_newSession (target : List Char) (mode : Mode) (ts : ℤ) :
    ClockInv (newSession target mode ts) 0 := by
  refine ⟨le_refl 0, le_refl 0, le_refl 0, le_refl 0, ?_, ?_, ?_, ?_, ?_, ?_⟩
  · intro _; exact ⟨rfl, rfl⟩
  · intro h; exact absurd rfl h
  · exact List.chain'_nil
  · intro a ha; simp [newSession] at ha
  · intro _ _; rfl
  · intro h; exact absurd rfl h

theorem ClockInv_handleRune (s : Session) (r : Char) (c : ℕ) (h : ClockInv s c) :
    ClockInv (s.handleRune r) c := by
  unfold ClockInv sampleTimesMono at h ⊢
  simpa using h

theorem ClockInv_handleBackspace (s : Session) (c : ℕ) (h : ClockInv s c) :
    ClockInv s.handleBackspace c := by
  unfold ClockInv sampleTimesMono at h ⊢
  simpa using h

theorem ClockInv_start (s : Session) (now c : ℕ) (h : ClockInv s c) (hc : c ≤ now)
    (h0 : s.startedAt = 0) (hf : s.finished = false) (ha : s.aborted = false)
    (hnow : 0 < now) : ClockInv (s.start now) now := by
  obtain ⟨h1, h2, h3, h4, h5, h6, h7, h8, h9, h10⟩ := h
  obtain ⟨hsam, hlast⟩ := h5 h0
  have hend : s.endedAt = 0 := h9 hf ha
  refine ⟨?_, ?_, ?_, ?_, ?_, ?_, ?_, ?_, ?_, ?_⟩
  · simp
  · simp
  · simp [hend]
  · simp
  · intro hz
    rw [start_startedAt] at hz
    omega
  · intro _
    simp [hsam]
  · unfold sampleTimesMono
    simp [hsam]
  · intro a ha2
    rw [start_samples, hsam] at ha2
    simp at ha2
    rw [← ha2]
    simp
  · intro _ _
    simp [hend]
  · intro hne
    rw [start_endedAt, hend] at hne
    exact absurd rfl hne

theorem ClockInv_finish (s : Session) (now c : ℕ) (h : ClockInv s c) (hc : c ≤ now)
    (hnow : 0 < now) : ClockInv (s.finish now) now := by
  obtain ⟨h1, h2, h3, h4, h5, h6, h7, h8, h9, h10⟩ := h
  exact ⟨by simpa [Session.finish] using le_trans h1 hc,
    by simpa [Session.finish] using le_trans h2 hc,
    by simp [Session.finish],
    by simpa [Session.finish] using h4,
    by simpa [Session.finish] using h5,
    by simpa [Session.finish] using h6,
    by simpa [Session.finish, sampleTimesMono] using h7,
    by simpa [Session.finish] using h8,
    by simp [Session.finish],
    by intro _; simp [Session.finish]; omega⟩

theorem ClockInv_abortState (s : Session) (now c : ℕ) (h : ClockInv s c) (hc : c ≤ now)
    (hnow : 0 < now) : ClockInv (s.abortState now) now := by
  obtain ⟨h1, h2, h3, h4, h5, h6, h7, h8, h9, h10⟩ := h
  exact ⟨by simpa [Session.abortState] using le_trans h1 hc,
    by simpa [Session.abortState] using le_trans h2 hc,
    by simp [Session.abortState],
    by simpa [Session.abortState] using h4,
    by simpa [Session.abortState] using h5,
    by simpa [Session.abortState] using h6,
    by simpa [Session.abortState, sampleTimesMono] using h7,
    by simpa [Session.abortState] using h8,
    by simp [Session.abortState],
    by intro _; simp [Session.abortState]; omega⟩

theorem ClockInv_maybeTakeSample (s : Session) (now c : ℕ) (h : ClockInv s c)
    (hc : c ≤ now) (hend : s.endedAt = 0 ∨ s.endedAt = now) :
    ClockInv (s.maybeTakeSample now) now := by
  obtain ⟨h1, h2, h3, h4, h5, h6, h7, h8, h9, h10⟩ := h
  unfold Session.maybeTakeSample
  split
  · exact ClockInv_mono s hc ⟨h1, h2, h3, h4, h5, h6, h7, h8, h9, h10⟩
  · rename_i h0
    split
    · rename_i hint
      have hsampnil : ¬ s.samples = [] := by
        intro hnil
        have := h6 h0
        rw [hnil] at this
        simp at this
      refine ⟨?_, ?_, ?_, ?_, ?_, ?_, ?_, ?_, ?_, ?_⟩
      · simpa using le_trans h1 hc
      · simp
      · simpa using le_trans h3 hc
      · simpa using le_trans h1 hc
      · intro hz
        simp at hz
        exact absurd hz h0
      · intro _
        simp only
        rw [List.head?_append]
        rw [h6 h0]
        rfl
      · unfold sampleTimesMono at h7 ⊢
        simp only
        rw [List.chain'_append]
        refine ⟨h7, List.chain'_singleton _, ?_⟩
        intro x hx y hy
        simp at hy
        rw [← hy, calculateSample_timeMs]
        calc x.timeMs
            ≤ (((s.lastSampleTime - s.startedAt) / nsPerMs : ℕ) : ℤ) := h8 x hx
          _ ≤ (((now - s.startedAt) / nsPerMs : ℕ) : ℤ) := by
              have hle : s.lastSampleTime - s.startedAt ≤ now - s.startedAt := by
                have : s.lastSampleTime ≤ now := le_trans h2 hc
                omega
              exact_mod_cast Nat.div_le_div_right hle
      · intro a ha2
        simp only at ha2
        rw [List.getLast?_concat] at ha2
        simp at ha2
        rw [← ha2, calculateSample_timeMs]
      · intro hfin habort
        simpa using h9 hfin habort
      · intro hne
        simp only at hne ⊢
        rcases hend with he | he
        · exact absurd he (by simpa using hne)
        · constructor
          · simp [he]
          · rw [he]
            exact le_trans h1 hc
    · exact ClockInv_mono s hc ⟨h1, h2, h3, h4, h5, h6, h7, h8, h9, h10⟩

theorem ClockInv_handleKey (s : Session) (kt : ℕ) (r : Char) (now c : ℕ)
    (h : ClockInv s c) (hc : c ≤ now) (hnow : 0 < now) :
    ClockInv (s.handleKey kt r now) now := by
  unfold Session.handleKey
  split
  · exact ClockInv_mono s hc h
  · rename_i hterm
    have hf : s.finished = false := by
      rcases Bool.eq_false_or_eq_true s.finished with hh | hh
      · exact absurd (Or.inl hh) hterm
      · exact hh
    have ha : s.aborted = false := by
      rcases Bool.eq_false_or_eq_true s.aborted with hh | hh
      · exact absurd (Or.inr hh) hterm
      · exact hh
    have hend0 : s.endedAt = 0 := h.2.2.2.2.2.2.2.2.1 hf ha
    dsimp only
    generalize hs1 : (if s.startedAt = 0 then s.start now else s) = s1
    have hC1 : ClockInv s1 now ∧ s1.endedAt = 0 := by
      rw [← hs1]
      split
      · rename_i h0
        exact ⟨ClockInv_start s now c h hc h0 hf ha hnow, by simpa using hend0⟩
      · exact ⟨ClockInv_mono s hc h, hend0⟩
    obtain ⟨hC1, hend1⟩ := hC1
    generalize hs2 : (if kt = keyTypeRune then s1.handleRune r
        else if kt = keyTypeBackspace then s1.handleBackspace else s1) = s2
    have hC2 : ClockInv s2 now ∧ s2.endedAt = 0 := by
      rw [← hs2]
      split
      · exact ⟨ClockInv_handleRune s1 r now hC1, by simpa using hend1⟩
      · split
        · exact ⟨ClockInv_handleBackspace s1 now hC1, by simpa using hend1⟩
        · exact ⟨hC1, hend1⟩
    obtain ⟨hC2, hend2⟩ := hC2
    generalize hs3 : (if s2.mode ≠ Mode.timer ∧ s2.targetRunes.length ≤ s2.typedRunes.length
        then s2.finish now else s2) = s3
    have hC3 : ClockInv s3 now ∧ (s3.endedAt = 0 ∨ s3.endedAt = now) := by
      rw [← hs3]
      split
      · exact ⟨ClockInv_finish s2 now now hC2 (le_refl now) hnow,
          Or.inr (by simp [Session.finish])⟩
      · exact ⟨hC2, Or.inl hend2⟩
    obtain ⟨hC3, hend3⟩ := hC3
    exact ClockInv_maybeTakeSample s3 now now hC3 (le_refl now) hend3

theorem ClockInv_takeSample (s : Session) (now c : ℕ) (h : ClockInv s c)
    (hc : c ≤ now) : ClockInv (s.takeSample now) now := by
  unfold Session.takeSample
  split
  · exact ClockInv_mono s hc h
  · rename_i hcond
    push_neg at hcond
    have hf : s.finished = false := by simpa using hcond.2.1
    have ha : s.aborted = false := by simpa using hcond.2.2
    exact ClockInv_maybeTakeSample s now c h hc
      (Or.inl (h.2.2.2.2.2.2.2.2.1 hf ha))

theorem ClockInv_step (s : Session) (e : Event) (c : ℕ) (h : ClockInv s c)
    (hce : c ≤ e.time) (hpos : 0 < e.time) : ClockInv (s.step e) e.time := by
  cases e with
  | key kt r now => exact ClockInv_handleKey s kt r now c h hce hpos
  | tick now => exact ClockInv_takeSample s now c h hce
  | abortEv now => exact ClockInv_abortState s now c h hce hpos

theorem ClockInv_run : ∀ (trace : List Event) (s : Session) (c : ℕ),
    ClockInv s c → TimesOK c trace → ∃ d, ClockInv (s.run trace) d
  | [], s, c, h, _ => ⟨c, h⟩
  | e :: t, s, c, h, ht => by
      obtain ⟨hce, hpos, htt⟩ := ht
      have hstep := ClockInv_step s e c h hce hpos
      obtain ⟨d, hd⟩ := ClockInv_run t (s.step e) e.time hstep htt
      exact ⟨d, by simpa [Session.run] using hd⟩

/-- C2: over any execution with positive, non-decreasing event times,
the sample sequence returned by `GetResult` is non-decreasing in
`TimeMs`; its first sample (if any) has `TimeMs = 0` and `WPM = 0`; and
whenever the session both started and ended, `GetResult` appends exactly
one final sample whose `TimeMs` is the exact end time
`(EndedAt - StartedAt)` in milliseconds. -/
theorem c2_sample_sequence (target : List Char) (mode : Mode) (ts : ℤ)
    (trace : List Event) (ht : TimesOK 0 trace) :
    sampleTimesMono (((newSession target mode ts).run trace).getResult.samples) ∧
    (∀ a, ((newSession target mode ts).run trace).getResult.samples.head? = some a →
      a.timeMs = 0 ∧ a.wpm = 0) ∧
    (¬ ((newSession target mode ts).run trace).startedAt = 0 →
     ¬ ((newSession target mode ts).run trace).endedAt = 0 →
      ((newSession target mode ts).run trace).getResult.samples
        = ((newSession target mode ts).run trace).samples ++
            [((newSession target mode ts).run trace).calculateSample
              (((newSession target mode ts).run trace).endedAt -
                ((newSession target mode ts).run trace).startedAt)] ∧
      (∀ a, ((newSession target mode ts).run trace).getResult.samples.getLast? = some a →
        a.timeMs = (((((newSession target mode ts).run trace).endedAt -
            ((newSession target mode ts).run trace).startedAt) / nsPerMs : ℕ) : ℤ))) := by
  obtain ⟨d, hCI⟩ := ClockInv_run trace (newSession target mode ts) 0
    (ClockInv_newSession target mode ts) ht
  obtain ⟨h1, h2, h3, h4, h5, h6, h7, h8, h9, h10⟩ := hCI
  refine ⟨?_, ?_, ?_⟩
  · rw [getResult_samples]
    split
    · rename_i hcond
      unfold sampleTimesMono
      rw [List.chain'_append]
      refine ⟨h7, List.chain'_singleton _, ?_⟩
      intro x hx y hy
      simp at hy
      rw [← hy, calculateSample_timeMs]
      obtain ⟨hlse, _⟩ := h10 hcond.2
      calc x.timeMs
          ≤ ((((newSession target mode ts).run trace).lastSampleTime -
              ((newSession target mode ts).run trace).startedAt) / nsPerMs : ℕ) := h8 x hx
        _ ≤ (((((newSession target mode ts).run trace).endedAt -
              ((newSession target mode ts).run trace).startedAt) / nsPerMs : ℕ) : ℤ) := by
            have hle : ((newSession target mode ts).run trace).lastSampleTime -
                ((newSession target mode ts).run trace).startedAt ≤
                ((newSession target mode ts).run trace).endedAt -
                ((newSession target mode ts).run trace).startedAt := by omega
            exact_mod_cast Nat.div_le_div_right hle
    · exact h7
  · intro a ha
    rw [getResult_samples] at ha
    rcases Classical.em (((newSession target mode ts).run trace).startedAt = 0)
      with h0 | h0
    · obtain ⟨hnil, _⟩ := h5 h0
      rw [if_neg (by simp [h0]), hnil] at ha
      simp at ha
    · have hhead := h6 h0
      split at ha
      · rw [List.head?_append, hhead] at ha
        simp at ha
        rw [← ha]
        exact ⟨rfl, rfl⟩
      · rw [hhead] at ha
        simp at ha
        rw [← ha]
        exact ⟨rfl, rfl⟩
  · intro h0 hE
    rw [getResult_samples, if_pos ⟨h0, hE⟩]
    refine ⟨rfl, ?_⟩
    intro a ha
    rw [List.getLast?_concat] at ha
    simp at ha
    rw [← ha, calculateSample_timeMs]

/-- Witness for C2: a concrete two-keystroke session with one ticker
event, with positive strictly increasing times. -/
theorem c2_sample_sequence_witness :
    TimesOK 0 [Event.key keyTypeRune 'h' 1000000000, Event.tick 2000000000,
      Event.key keyTypeRune 'i' 3000000000] ∧
    sampleTimesMono (((newSession ['h', 'i'] Mode.words 0).run
      [Event.key keyTypeRune 'h' 1000000000, Event.tick 2000000000,
        Event.key keyTypeRune 'i' 3000000000]).getResult.samples) :=
  ⟨by decide,
    (c2_sample_sequence ['h', 'i'] Mode.words 0
      [Event.key keyTypeRune 'h' 1000000000, Event.tick 2000000000,
        Event.key keyTypeRune 'i' 3000000000] (by decide)).1⟩

/-! ### ChartRenderer, from `internal/charts/chart.go`

Go `float64` values are modelled with `ℚ` (the literal `0.1` is `1/10`),
`math.Round` as round-half-away-from-zero, `int(...)` casts as
truncation toward zero. -/

/-- `DataPoint` (`chart.go`). -/
structure DataPoint where
  timeMs : ℤ
  value : ℚ
deriving DecidableEq, Repr

/-- `ChartOptions` (`chart.go`). -/
structure ChartOptions where
  width : ℤ
  height : ℤ
  showAxis : Bool
  title : String
  valueUnit : String
deriving DecidableEq, Repr

/-- Go `math.Round`: round half away from zero. -/
def goRound (x : ℚ) : ℤ := if x < 0 then -(⌊-x + 1 / 2⌋) else ⌊x + 1 / 2⌋

/-- Go `int(...)` on a float: truncation toward zero. -/
def goTrunc (x : ℚ) : ℤ := if x < 0 then -(⌊-x⌋) else ⌊x⌋

/-- `findMinMax` (`chart.go`): `(0, 100)` for the empty list, else the
minimum and maximum value scanned from the first point. -/
def findMinMax (points : List DataPoint) : ℚ × ℚ :=
  match points with
  | [] => (0, 100)
  | p :: _ =>
    points.foldl (fun mm q =>
      (if q.value < mm.1 then q.value else mm.1,
       if mm.2 < q.value then q.value else mm.2)) (p.value, p.value)

/-- `mapToRange` (`chart.go`): linear interpolation with the explicit
zero-denominator guard returning `outMin`. -/
def mapToRange (value inMin inMax outMin outMax : ℚ) : ℚ :=
  if inMax - inMin = 0 then outMin
  else (value - inMin) / (inMax - inMin) * (outMax - outMin) + outMin

/-- `clampInt` (`chart.go`). -/
def clampInt (val lo hi : ℤ) : ℤ :=
  if val < lo then lo else if hi < val then hi else val

/-- The character grid `[][]rune`. -/
abbrev Grid := List (List Char)

/-- Grid initialisation: `height` rows of `width` blanks. -/
def mkGrid (height width : ℕ) : Grid :=
  List.replicate height (List.replicate width ' ')

/-- `grid[y][x] = c`. -/
def setCell (g : Grid) (y x : ℕ) (c : Char) : Grid :=
  g.set y ((g.getD y []).set x c)

/-- `if grid[y][x] == ' ' { grid[y][x] = c }`: connector glyphs never
overwrite a plotted data point. -/
def setCellIfEmpty (g : Grid) (y x : ℕ) (c : Char) : Grid :=
  if (g.getD y []).getD x 'X' = ' ' then setCell g y x c else g

/-- The inner loop of `connectPoints` (`chart.go`): `steps`
Bresenham-style interpolation increments between two mapped points. -/
def drawSegment (g : Grid) (x1 y1 x2 y2 : ℚ) (width height : ℤ) : Grid :=
  let steps := goTrunc (max |x2 - x1| |y2 - y1|)
  if steps = 0 then g
  else
    (List.range (steps.toNat + 1)).foldl (fun gg s =>
      let t : ℚ := (s : ℚ) / (steps : ℚ)
      let x := x1 + t * (x2 - x1)
      let y := y1 + t * (y2 - y1)
      let xIdx := clampInt (goRound x) 0 (width - 1)
      let yIdx := clampInt (goRound y) 0 (height - 1)
      setCellIfEmpty gg yIdx.toNat xIdx.toNat '·') g

/-- `connectPoints` (`chart.go`): connects consecutive points; returns
the grid unchanged for fewer than two points. -/
def connectPoints (g : Grid) (points : List DataPoint) (minVal maxVal : ℚ)
    (width height : ℤ) : Grid :=
  if points.length < 2 then g
  else
    let maxTime0 : ℚ := (((points.getLast?.map DataPoint.timeMs).getD 0 : ℤ) : ℚ)
    let maxTime := if maxTime0 = 0 then 1 else maxTime0
    (points.zip points.tail).foldl (fun gg pq =>
      let x1 := mapToRange (pq.1.timeMs : ℚ) 0 maxTime 0 ((width : ℚ) - 1)
      let y1 := mapToRange pq.1.value minVal maxVal ((height : ℚ) - 1) 0
      let x2 := mapToRange (pq.2.timeMs : ℚ) 0 maxTime 0 ((width : ℚ) - 1)
      let y2 := mapToRange pq.2.value minVal maxVal ((height : ℚ) - 1) 0
      drawSegment gg x1 y1 x2 y2 width height) g

/-- The clamped value range of `RenderChart` (`chart.go` lines 52–55):
`maxVal - minVal`, floored at 1. -/
def clampedValRange (points : List DataPoint) : ℚ :=
  if (findMinMax points).2 - (findMinMax points).1 < 1 then 1
  else (findMinMax points).2 - (findMinMax points).1

/-- The padded value bounds of `RenderChart` (`chart.go` lines 56–57):
10% of the clamped range on each side, the minimum floored at 0. -/
def paddedBounds (points : List DataPoint) : ℚ × ℚ :=
  (max 0 ((findMinMax points).1 - clampedValRange points * (1 / 10)),
   (findMinMax points).2 + clampedValRange points * (1 / 10))

/-- The outcome of `RenderChart` up to string assembly: the explicit
"No data" early return, or the final grid together with the padded
bounds and effective dimensions that the label/axis formatting below it
in the source consumes. -/
inductive ChartRender where
  | noData
  | chart (grid : Grid) (minVal maxVal : ℚ) (chartWidth height : ℤ)
deriving DecidableEq, Repr

/-- The grid of a render outcome (empty for "No data"). -/
def ChartRender.gridOf : ChartRender → Grid
  | ChartRender.noData => []
  | ChartRender.chart g _ _ _ _ => g

/-- `RenderChart` (`chart.go`): early "No data" return for zero points,
dimension clamping (width at 20, height at 5, chart area at 10 columns),
range padding, point plotting with per-axis rounding and clamping, then
`connectPoints`. -/
def renderChart (points : List DataPoint) (opts : ChartOptions) : ChartRender :=
  if points.length = 0 then ChartRender.noData
  else
    let w := if opts.width < 20 then 20 else opts.width
    let h := if opts.height < 5 then 5 else opts.height
    let minVal := (paddedBounds points).1
    let maxVal := (paddedBounds points).2
    let axisWidth : ℤ := 6
    let chartWidth := if w - axisWidth < 10 then 10 else w - axisWidth
    let grid0 := mkGrid h.toNat chartWidth.toNat
    let lastT : ℤ := (points.getLast?.map DataPoint.timeMs).getD 0
    let plotted := points.foldl (fun g p =>
      let x := mapToRange (p.timeMs : ℚ) 0 (lastT : ℚ) 0 ((chartWidth : ℚ) - 1)
      let xIdx0 := goRound x
      let xIdx := if xIdx0 < 0 then 0 else if chartWidth ≤ xIdx0 then chartWidth - 1 else xIdx0
      let y := mapToRange p.value minVal maxVal ((h : ℚ) - 1) 0
      let yIdx0 := goRound y
      let yIdx := if yIdx0 < 0 then 0 else if h ≤ yIdx0 then h - 1 else yIdx0
      setCell g yIdx.toNat xIdx.toNat '█') grid0
    ChartRender.chart (connectPoints plotted points minVal maxVal chartWidth h)
      minVal maxVal chartWidth h

/-- Number of non-blank cells in a grid. -/
def countNonBlank (g : Grid) : ℕ :=
  (g.map (fun row => row.countP (fun c => decide (¬ c = ' ')))).sum

theorem sum_replicate_zero_set : ∀ (n y : ℕ) (v : ℕ), y < n →
    (((List.replicate n (0 : ℕ)).set y v).sum = v)
  | 0, y, v, h => absurd h (by simp)
  | n + 1, 0, v, _ => by simp [List.replicate, List.sum_replicate]
  | n + 1, y + 1, v, h => by
      have ih := sum_replicate_zero_set n y v (by omega)
      simp [List.replicate]
      omega

theorem countNonBlank_setCell_mkGrid (hgt wid y x : ℕ) (hy : y < hgt) (hx : x < wid) :
    countNonBlank (setCell (mkGrid hgt wid) y x '█') = 1 := by
  unfold countNonBlank setCell mkGrid
  have hrow : (List.replicate hgt (List.replicate wid ' ')).getD y []
      = List.replicate wid ' ' := by
    unfold List.getD
    simp [List.getElem?_replicate, hy]
  rw [hrow]
  rw [List.map_set]
  have hrowcount : (List.replicate wid ' ').countP (fun c => decide (¬ c = ' ')) = 0 := by
    induction wid with
    | zero => rfl
    | succ n ih => simpa [List.replicate, List.countP_cons] using ih
  have hsetcount : ((List.replicate wid ' ').set x '█').countP
      (fun c => decide (¬ c = ' ')) = 1 := by
    have := countP_set_add (fun c => decide (¬ c = ' ')) ' '
      (List.replicate wid ' ') x (by simpa using hx) '█'
    rw [hrowcount] at this
    have hgetD : (List.replicate wid ' ').getD x ' ' = ' ' := by
      unfold List.getD
      simp [List.getElem?_replicate, hx]
    rw [hgetD] at this
    simpa using this
  rw [hsetcount]
  have hmap : (List.replicate hgt (List.replicate wid ' ')).map
      (fun row => row.countP (fun c => decide (¬ c = ' '))) = List.replicate hgt 0 := by
    rw [List.map_replicate, hrowcount]
  rw [hmap]
  exact sum_replicate_zero_set hgt y 1 hy

theorem clampIdx_toNat_lt (b i : ℤ) (hb : 0 < b) :
    (if i < 0 then 0 else if b ≤ i then b - 1 else i).toNat < b.toNat := by
  split
  · omega
  · split
    · omega
    · omega

/-- `connectPoints` on a single point is the identity: no connector
cells are drawn. -/
theorem connectPoints_single (g : Grid) (p : DataPoint) (mn mx : ℚ) (w h : ℤ) :
    connectPoints g [p] mn mx w h = g := rfl

/-- `findMinMax` of a non-empty all-equal series is that value twice. -/
theorem findMinMax_const (points : List DataPoint) (v : ℚ)
    (hne : ¬ points = []) (hall : ∀ q ∈ points, q.value = v) :
    findMinMax points = (v, v) := by
  have haux : ∀ (l : List DataPoint), (∀ q ∈ l, q.value = v) →
      l.foldl (fun mm q =>
        ((if q.value < mm.1 then q.value else mm.1 : ℚ),
         (if mm.2 < q.value then q.value else mm.2 : ℚ))) (v, v) = (v, v) := by
    intro l
    induction l with
    | nil => intro _; rfl
    | cons q t ih =>
        intro hq
        have hqv : q.value = v := hq q (by simp)
        simp only [List.foldl_cons, hqv, lt_irrefl, if_false]
        exact ih (fun r hr => hq r (by simp [hr]))
  match points, hne with
  | p :: rest, _ =>
    have hp : p.value = v := hall p (by simp)
    have hstart : findMinMax (p :: rest)
        = (p :: rest).foldl (fun mm q =>
            ((if q.value < mm.1 then q.value else mm.1 : ℚ),
             (if mm.2 < q.value then q.value else mm.2 : ℚ))) (p.value, p.value) := rfl
    rw [hstart, hp]
    exact haux (p :: rest) hall

/-! ### Claim C9 -/

/-- C9: chart rendering is total on its degenerate inputs — the empty
series yields the explicit "No data" outcome, a single sample draws no
connector cells and plots exactly one cell, and an all-equal series has
its value range clamped to 1 unit, which (for the nonnegative values a
WPM series carries) keeps the padded value bounds strictly separated so
the value-axis interpolation never divides by zero. -/
theorem c9_chart_degenerate :
    (∀ opts : ChartOptions, renderChart [] opts = ChartRender.noData) ∧
    (∀ (g : Grid) (p : DataPoint) (mn mx : ℚ) (w h : ℤ),
      connectPoints g [p] mn mx w h = g) ∧
    (∀ (p : DataPoint) (opts : ChartOptions),
      countNonBlank (renderChart [p] opts).gridOf = 1) ∧
    (∀ (points : List DataPoint) (v : ℚ), ¬ points = [] →
      (∀ q ∈ points, q.value = v) →
      clampedValRange points = 1 ∧
      (0 ≤ v → (paddedBounds points).1 < (paddedBounds points).2)) := by
  refine ⟨fun _ => rfl, connectPoints_single, ?_, ?_⟩
  · intro p opts
    rw [renderChart]
    rw [if_neg (by simp)]
    dsimp only
    rw [connectPoints_single]
    simp only [ChartRender.gridOf, List.foldl_cons, List.foldl_nil]
    apply countNonBlank_setCell_mkGrid
    · apply clampIdx_toNat_lt
      split <;> omega
    · apply clampIdx_toNat_lt
      split <;> omega
  · intro points v hne hall
    have hmm := findMinMax_const points v hne hall
    have hrange : clampedValRange points = 1 := by
      unfold clampedValRange
      rw [hmm]
      norm_num
    refine ⟨hrange, ?_⟩
    intro hv
    unfold paddedBounds
    rw [hmm, hrange]
    simp only
    rcases le_or_lt (v - 1 * (1 / 10)) 0 with hcase | hcase
    · rw [max_eq_left hcase]
      linarith
    · rw [max_eq_right hcase.le]
      linarith

/-- Witness for C9 at a concrete all-equal series and the empty series. -/
theorem c9_chart_degenerate_witness :
    ¬ ([({ timeMs := 0, value := 42 } : DataPoint),
        { timeMs := 1000, value := 42 }] : List DataPoint) = [] ∧
    clampedValRange [({ timeMs := 0, value := 42 } : DataPoint),
        { timeMs := 1000, value := 42 }] = 1 :=
  ⟨by decide,
    ((c9_chart_degenerate.2.2.2)
      [({ timeMs := 0, value := 42 } : DataPoint), { timeMs := 1000, value := 42 }] 42
      (by decide) (by decide)).1⟩

end Mtcli
